import Mathlib

/-! LaserCast (`src/main.cpp`): shallow embedding and verification.

The program scans each camera frame for the first bright-red pixel (`getRed`),
grows a bounding rectangle around it along eight rays of stride 2 (`getLastRed`,
`getRect`), maps the red pixels of the rectangle to display coordinates and
appends them to a persistent trail (`getVet`); `main` repeats this once per frame.

Modelling conventions.

* C `int` values are `Int`.  Every addition in the program is on a frame
  coordinate and a constant of magnitude at most 3, so it stays inside the `int`
  range for every frame whose sides are below `2^31 - 3`; the one multiplication
  (`x * RES_X`, `y * RES_Y`) is reduced to 32 bits explicitly (`wrapInt32`).
* `cv::Mat` is a pair of dimensions and a pixel function; `Mat.at` is the checked
  read and faults outside the frame (the C++ read there is undefined).
* `std::vector<Ponto>` is `List Ponto`, `push_back` appends at the end.
* Output parameters (`Ponto *point`, `vector &out`, `Retangulo *rect`) are passed
  in and returned explicitly.
* Counted `for` loops recurse on the number of iterations left; the `while` loop
  of `getLastRed` takes fuel: the number of times its body may run.
  `getLastRed.reads` is the same loop with the positions it reads recorded.
* The paint pass is the list of stores it makes into the mapped frame buffer.
-/

namespace LaserCast

/-! ## Constants (`#define`s of main.cpp, lines 22-27) -/

/-- Screen horizontal resolution. -/
def RES_X : Int := 800
/-- Screen vertical resolution. -/
def RES_Y : Int := 600
/-- Square size of clean command. -/
def CATETO_CLEAN : Int := 64
/-- Square size of close command: `CATETO_CLEAN / 2`. -/
def CATETO_CLOSE : Int := CATETO_CLEAN / 2
/-- Camera horizontal resolution. -/
def CAMERA_RES_X : Int := 640
/-- Camera vertical resolution. -/
def CAMERA_RES_Y : Int := 480

/-! ## Data model -/

/-- The `Retangulo` struct (lines 32-34). -/
structure Retangulo where
  x_ini : Int
  x_fim : Int
  y_ini : Int
  y_fim : Int
  deriving DecidableEq, Repr

/-- The `Ponto` struct (lines 36-38). -/
structure Ponto where
  x : Int
  y : Int
  deriving DecidableEq, Repr

/-- An OpenCV `Vec3b`: three 8-bit channels, index 0 blue, 1 green, 2 red. -/
structure Vec3b where
  c0 : Nat
  c1 : Nat
  c2 : Nat
  deriving DecidableEq, Repr

/-- Ways in which a run of the embedded code can fail to produce a value. -/
inductive Fault where
  /-- A `frame.at` read outside `[0, rows) x [0, cols)`. -/
  | outOfBounds
  /-- The `while` loop of `getLastRed` was cut off before it finished. -/
  | outOfFuel
  deriving DecidableEq, Repr

/-- The part of `cv::Mat` the program uses: `rows`, `cols` and the pixels. -/
structure Mat where
  rows : Nat
  cols : Nat
  px : Int → Int → Vec3b

/-- Whether `(y, x)` is a position of the frame. -/
def Mat.inFrame (frame : Mat) (y x : Int) : Prop :=
  0 ≤ y ∧ y < frame.rows ∧ 0 ≤ x ∧ x < frame.cols

instance (frame : Mat) (y x : Int) : Decidable (frame.inFrame y x) := by
  unfold Mat.inFrame; infer_instance

/-- The read `frame.at<Vec3b>(y, x)`. -/
def Mat.at (frame : Mat) (y x : Int) : Except Fault Vec3b :=
  if frame.inFrame y x then .ok (frame.px y x) else .error .outOfBounds

/-! ## `getRed` (lines 46-73) -/

/-- What `getRed` leaves behind: the returned `int`, the `point` and `out`
parameters after the call, and whether `system("xrefresh")` was run. -/
structure RedResult where
  ret : Int
  point : Ponto
  out : List Ponto
  xrefresh : Bool
  deriving DecidableEq, Repr

/-- The body of `if (frame.at<Vec3b>(y,x)[2] > 200)` in `getRed` (lines 54-67),
which always returns. -/
def getRed.hit (point : Ponto) (out : List Ponto) (y x : Int) : RedResult :=
  if y ≤ CATETO_CLEAN ∧ x ≤ CATETO_CLEAN then
    -- clean command: out.clear(); system("xrefresh"); then falls to `return 1`
    { ret := 1, point := point, out := [], xrefresh := true }
  else if y ≤ CATETO_CLOSE ∧ x > CAMERA_RES_X - CATETO_CLOSE then
    { ret := -1, point := point, out := out, xrefresh := false }
  else
    { ret := 1, point := { x := x, y := y }, out := out, xrefresh := false }

/-- The inner loop `for (x ...; x < frame.cols; x++)` of `getRed` on row `y`,
at column `x` with `n` columns left.  `some r`: the function returned `r`;
`none`: the loop ran to its end. -/
def getRed.scanRow (frame : Mat) (point : Ponto) (out : List Ponto) (y : Int) :
    Nat → Int → Except Fault (Option RedResult)
  | 0, _ => .ok none
  | n + 1, x =>
    match frame.at y x with
    | .error e => .error e
    | .ok v =>
      if v.c2 > 200 then .ok (some (getRed.hit point out y x))
      else getRed.scanRow frame point out y n (x + 1)

/-- The outer loop `for (y ...; y < frame.rows; y++)` of `getRed`, at row `y`
with `m` rows left. -/
def getRed.scanRows (frame : Mat) (point : Ponto) (out : List Ponto) :
    Nat → Int → Except Fault (Option RedResult)
  | 0, _ => .ok none
  | m + 1, y =>
    match getRed.scanRow frame point out y frame.cols 0 with
    | .error e => .error e
    | .ok (some r) => .ok (some r)
    | .ok none => getRed.scanRows frame point out m (y + 1)

/-- The function `getRed(frame, point, out)`. -/
def getRed (frame : Mat) (point : Ponto) (out : List Ponto) : Except Fault RedResult :=
  match getRed.scanRows frame point out frame.rows 0 with
  | .error e => .error e
  | .ok (some r) => .ok r
  | .ok none => .ok { ret := 0, point := point, out := out, xrefresh := false }

/-! ## `getVet` (lines 81-95) -/

/-- Two's-complement reduction of an integer to the 32-bit `int` range. -/
def wrapInt32 (v : Int) : Int := (v + 2147483648) % 4294967296 - 2147483648

/-- The call `roundf(e)` assigned to an `int`, for an `int` expression `e`: the
value is converted to `float`, rounded and converted back.  In `getVet` the
argument is a quotient by 640 or 480 of a 32-bit value, so its magnitude is
below `2^24`: the conversion is exact, `roundf` of an integral `float` is that
`float`, and the result is the argument. -/
def roundfInt (v : Int) : Int := v

/-- The expression `roundf(x * RES_X / CAMERA_RES_X)` of line 89: `int` product,
`int` division (truncating), then `roundf`. -/
def screenX (x : Int) : Int :=
  roundfInt (Int.tdiv (wrapInt32 (x * RES_X)) CAMERA_RES_X)

/-- The expression `roundf(y * RES_Y / CAMERA_RES_Y)` of line 90. -/
def screenY (y : Int) : Int :=
  roundfInt (Int.tdiv (wrapInt32 (y * RES_Y)) CAMERA_RES_Y)

/-- The point `p` built at lines 86-90 for the camera pixel `(x, y)`. -/
def toScreen (x y : Int) : Ponto := { x := screenX x, y := screenY y }

/-- The inner loop `for (x ...; x < rect->x_fim; x++)` of `getVet` on row `y`,
at column `x` with `n` columns left; `out` is the vector so far. -/
def getVet.scanRow (frame : Mat) (y : Int) :
    Nat → Int → List Ponto → Except Fault (List Ponto)
  | 0, _, out => .ok out
  | n + 1, x, out =>
    match frame.at y x with
    | .error e => .error e
    | .ok v =>
      if v.c2 > 200 then getVet.scanRow frame y n (x + 1) (out ++ [toScreen x y])
      else getVet.scanRow frame y n (x + 1) out

/-- The outer loop `for (y ...; y < rect->y_fim; y++)` of `getVet`, at row `y`
with `m` rows left. -/
def getVet.scanRows (frame : Mat) (rect : Retangulo) :
    Nat → Int → List Ponto → Except Fault (List Ponto)
  | 0, _, out => .ok out
  | m + 1, y, out =>
    match getVet.scanRow frame y (rect.x_fim - rect.x_ini).toNat rect.x_ini out with
    | .error e => .error e
    | .ok out1 => getVet.scanRows frame rect m (y + 1) out1

/-- The function `getVet(frame, out, rect)`; the result is `out` after the call. -/
def getVet (frame : Mat) (out : List Ponto) (rect : Retangulo) : Except Fault (List Ponto) :=
  getVet.scanRows frame rect (rect.y_fim - rect.y_ini).toNat rect.y_ini out

/-! ## `getLastRed` (lines 105-147) -/

/-- The local variables of `getLastRed`. -/
structure Ray where
  x_atual : Int
  y_atual : Int
  max_x : Int
  min_x : Int
  max_y : Int
  min_y : Int
  deriving DecidableEq, Repr

/-- Lines 115-122: the four running minimum/maximum updates. -/
def getLastRed.track (s : Ray) : Ray :=
  { s with
    max_x := if s.max_x < s.x_atual then s.x_atual else s.max_x
    min_x := if s.min_x > s.x_atual then s.x_atual else s.min_x
    max_y := if s.max_y < s.y_atual then s.y_atual else s.max_y
    min_y := if s.min_y > s.y_atual then s.y_atual else s.min_y }

/-- The `while` loop of lines 114-136.  `fuel` is the number of times the body
may still run; the loop test itself costs nothing. -/
def getLastRed.loop (frame : Mat) (up_x up_y : Int) : Nat → Ray → Except Fault Ray
  | 0, s =>
    match frame.at s.y_atual s.x_atual with
    | .error e => .error e
    | .ok v => if v.c2 > 200 then .error .outOfFuel else .ok s
  | fuel + 1, s =>
    match frame.at s.y_atual s.x_atual with
    | .error e => .error e
    | .ok v =>
      if v.c2 > 200 then
        let s1 := getLastRed.track s
        if s1.x_atual + up_x ≥ 0 ∧ s1.x_atual + up_x < frame.cols then
          let s2 := { s1 with x_atual := s1.x_atual + up_x }
          if s2.y_atual + up_y ≥ 0 ∧ s2.y_atual + up_y < frame.rows then
            getLastRed.loop frame up_x up_y fuel { s2 with y_atual := s2.y_atual + up_y }
          else .ok s2
        else .ok s1
      else .ok s

/-- Lines 138-146: merging the ray's minimum/maximum into the rectangle. -/
def getLastRed.merge (s : Ray) (out : Retangulo) : Retangulo :=
  { x_ini := if out.x_ini > s.min_x then s.min_x else out.x_ini
    x_fim := if out.x_fim < s.max_x then s.max_x else out.x_fim
    y_ini := if out.y_ini > s.min_y then s.min_y else out.y_ini
    y_fim := if out.y_fim < s.max_y then s.max_y else out.y_fim }

/-- The function `getLastRed(frame, point, up_x, up_y, out)`; the result is
`*out` after the call. -/
def getLastRed (fuel : Nat) (frame : Mat) (point : Ponto) (up_x up_y : Int)
    (out : Retangulo) : Except Fault Retangulo :=
  match getLastRed.loop frame up_x up_y fuel
      { x_atual := point.x, y_atual := point.y,
        max_x := point.x, min_x := point.x, max_y := point.y, min_y := point.y } with
  | .error e => .error e
  | .ok s => .ok (getLastRed.merge s out)

/-- The positions `(y, x)` the `while` loop of `getLastRed` passes to `frame.at`, in
order: the control flow of `getLastRed.loop` with the reads recorded. -/
def getLastRed.reads (frame : Mat) (up_x up_y : Int) : Nat → Ray → List (Int × Int)
  | 0, s => [(s.y_atual, s.x_atual)]
  | fuel + 1, s =>
    (s.y_atual, s.x_atual) ::
      match frame.at s.y_atual s.x_atual with
      | .error _ => []
      | .ok v =>
        if v.c2 > 200 then
          let s1 := getLastRed.track s
          if s1.x_atual + up_x ≥ 0 ∧ s1.x_atual + up_x < frame.cols then
            let s2 := { s1 with x_atual := s1.x_atual + up_x }
            if s2.y_atual + up_y ≥ 0 ∧ s2.y_atual + up_y < frame.rows then
              getLastRed.reads frame up_x up_y fuel { s2 with y_atual := s2.y_atual + up_y }
            else []
          else []
        else []

/-! ## `getRect` (lines 155-180) -/

/-- Lines 171-179: each side moves out by 3 when the moved side is still a
coordinate of the frame. -/
def getRect.pad (frame : Mat) (rect : Retangulo) : Retangulo :=
  { x_ini := if rect.x_ini - 3 ≥ 0 then rect.x_ini - 3 else rect.x_ini
    y_ini := if rect.y_ini - 3 ≥ 0 then rect.y_ini - 3 else rect.y_ini
    x_fim := if rect.x_fim + 3 < frame.cols then rect.x_fim + 3 else rect.x_fim
    y_fim := if rect.y_fim + 3 < frame.rows then rect.y_fim + 3 else rect.y_fim }

/-- Lines 157-169: the degenerate rectangle at `point`, then the eight rays. -/
def getRect.rays (fuel : Nat) (frame : Mat) (point : Ponto) : Except Fault Retangulo := do
  let rect : Retangulo :=
    { x_ini := point.x, x_fim := point.x, y_ini := point.y, y_fim := point.y }
  let rect ← getLastRed fuel frame point 2 0 rect
  let rect ← getLastRed fuel frame point (-2) 0 rect
  let rect ← getLastRed fuel frame point 0 2 rect
  let rect ← getLastRed fuel frame point 0 (-2) rect
  let rect ← getLastRed fuel frame point 2 2 rect
  let rect ← getLastRed fuel frame point (-2) 2 rect
  let rect ← getLastRed fuel frame point 2 (-2) rect
  getLastRed fuel frame point (-2) (-2) rect

/-- The function `getRect(frame, point, rect)`; the result is `*rect` after the
call (its value before the call is overwritten at lines 157-160). -/
def getRect (fuel : Nat) (frame : Mat) (point : Ponto) : Except Fault Retangulo :=
  match getRect.rays fuel frame point with
  | .error e => .error e
  | .ok rect => .ok (getRect.pad frame rect)

/-! ## One iteration of the loop of `main` (lines 225-270) -/

/-- The variables of `main` that live across iterations. -/
structure LoopState where
  point : Ponto
  rect : Retangulo
  framePoints : List Ponto
  deriving DecidableEq, Repr

/-- What one iteration does: the variables after it, whether `break` was taken
(then the paint pass is skipped and the loop ends; otherwise the paint pass
iterates over `state.framePoints`, which it does not change), and how many
times `system("xrefresh")` ran. -/
structure IterResult where
  state : LoopState
  stop : Bool
  xrefresh : Nat
  deriving DecidableEq, Repr

/-- Lines 226-237 for the captured `frame`. -/
def mainIter (fuel : Nat) (frame : Mat) (s : LoopState) : Except Fault IterResult :=
  match getRed frame s.point s.framePoints with
  | .error e => .error e
  | .ok r =>
    if r.ret = 1 then
      -- a red point was found!
      match getRect fuel frame r.point with
      | .error e => .error e
      | .ok rect =>
        match getVet frame r.out rect with
        | .error e => .error e
        | .ok out =>
          .ok { state := { point := r.point, rect := rect, framePoints := out },
                stop := false, xrefresh := r.xrefresh.toNat }
    else if r.ret = -1 then
      -- framePoints.clear(); system("xrefresh"); break
      .ok { state := { point := r.point, rect := s.rect, framePoints := [] },
            stop := true, xrefresh := r.xrefresh.toNat + 1 }
    else
      .ok { state := { point := r.point, rect := s.rect, framePoints := r.out },
            stop := false, xrefresh := r.xrefresh.toNat }

/-- The trail the paint pass of an iteration iterates over (lines 247-268), if
the iteration reaches it. -/
def IterResult.painted (r : IterResult) : Option (List Ponto) :=
  if r.stop then none else some r.state.framePoints

/-! ## The paint pass of `main` (lines 247-268) -/

/-- The fields of `vinfo` and `finfo` the paint pass reads. -/
structure FbInfo where
  xoffset : Nat
  yoffset : Nat
  bits_per_pixel : Nat
  line_length : Nat
  deriving DecidableEq, Repr

/-- A store of the paint pass into the mapped frame buffer at byte offset
`location`: one byte (`*(fbp + location) = value`) or one 16-bit value
(`*((unsigned short int*)(fbp + location)) = value`). -/
inductive Store where
  | byte (location : Int) (value : Nat)
  | half (location : Int) (value : Nat)
  deriving DecidableEq, Repr

/-- Lines 262-265: `b = 255`, `g = 255`, `r = 0` and the `unsigned short`
`t = r<<11 | g << 5 | b` (shifts bind tighter than `|`; the `int` result is
converted to 16 bits). -/
def pixel16 : Nat :=
  let b := 255
  let g := 255
  let r := 0
  (r <<< 11 ||| g <<< 5 ||| b) % 65536

/-- Lines 250-251: the byte offset of the dot, computed in 32-bit unsigned
arithmetic (`xoffset`, `yoffset`, `bits_per_pixel`, `line_length` are `__u32`). -/
def dotLocation (fb : FbInfo) (p : Ponto) : Int :=
  ((p.x + fb.xoffset) * ((fb.bits_per_pixel / 8 : Nat) : Int)
    + (p.y + fb.yoffset) * fb.line_length) % 4294967296

/-- Lines 250-267: the stores done for one point of the trail. -/
def paintPoint (fb : FbInfo) (p : Ponto) : List Store :=
  if fb.bits_per_pixel = 32 then
    -- do it cyan: blue, green, red, no transparency
    [ .byte (dotLocation fb p) 255, .byte (dotLocation fb p + 1) 255,
      .byte (dotLocation fb p + 2) 0, .byte (dotLocation fb p + 3) 0 ]
  else
    -- assume as 16 bits per pixel
    [ .half (dotLocation fb p) pixel16 ]

/-- The loop of lines 247-268 over the trail. -/
def paintPass (fb : FbInfo) (framePoints : List Ponto) : List Store :=
  framePoints.flatMap (paintPoint fb)

/-! ## Vocabulary of the specification -/

/-- The pixel at `(y, x)` is a pixel of the frame whose red channel exceeds 200. -/
def Mat.isRed (frame : Mat) (y x : Int) : Prop :=
  frame.inFrame y x ∧ (frame.px y x).c2 > 200

instance (frame : Mat) (y x : Int) : Decidable (frame.isRed y x) := by
  unfold Mat.isRed; infer_instance

/-- Row-major order on positions: `(y1, x1)` comes before `(y2, x2)`. -/
def rowMajorLt (y1 x1 y2 x2 : Int) : Prop := y1 < y2 ∨ (y1 = y2 ∧ x1 < x2)

instance (y1 x1 y2 x2 : Int) : Decidable (rowMajorLt y1 x1 y2 x2) := by
  unfold rowMajorLt; infer_instance

/-- The pixel `(y, x)` is the first one in row-major order with red above 200. -/
def Mat.firstRed (frame : Mat) (y x : Int) : Prop :=
  frame.isRed y x ∧ ∀ y1 x1, frame.inFrame y1 x1 → rowMajorLt y1 x1 y x →
    (frame.px y1 x1).c2 ≤ 200

/-- The four outcomes of the scan in the specification. -/
inductive Scan where
  | Clear
  | Close
  | Found (point : Ponto)
  | None
  deriving DecidableEq, Repr

/-- How the caller tells the outcomes of the specification apart from what
`getRed` leaves: 0 is None, -1 is Close, 1 with the trail cleared and the
refresh run is Clear, 1 otherwise is Found. -/
def RedResult.scan (r : RedResult) : Scan :=
  if r.ret = 0 then .None
  else if r.ret = -1 then .Close
  else if r.xrefresh then .Clear
  else .Found r.point

/-- The clear zone in the words of the specification: the top-left 64x64 square,
`0 <= x < 64` and `0 <= y < 64`. -/
def specClearZone (y x : Int) : Prop := 0 ≤ x ∧ x < 64 ∧ 0 ≤ y ∧ y < 64

instance (y x : Int) : Decidable (specClearZone y x) := by
  unfold specClearZone; infer_instance

/-- The rectangle lies inside the frame and contains the point `p`. -/
def Retangulo.within (r : Retangulo) (frame : Mat) (p : Ponto) : Prop :=
  (0 ≤ r.x_ini ∧ r.x_ini ≤ p.x ∧ p.x ≤ r.x_fim ∧ r.x_fim < frame.cols) ∧
  (0 ≤ r.y_ini ∧ r.y_ini ≤ p.y ∧ p.y ≤ r.y_fim ∧ r.y_fim < frame.rows)

instance (r : Retangulo) (frame : Mat) (p : Ponto) : Decidable (r.within frame p) := by
  unfold Retangulo.within; infer_instance

/-- The rectangle `a` reaches at least as far as `b` on every side. -/
def Retangulo.encloses (a b : Retangulo) : Prop :=
  a.x_ini ≤ b.x_ini ∧ b.x_fim ≤ a.x_fim ∧ a.y_ini ≤ b.y_ini ∧ b.y_fim ≤ a.y_fim

instance (a b : Retangulo) : Decidable (a.encloses b) := by
  unfold Retangulo.encloses; infer_instance

/-- One of the eight step vectors `getRect` passes to `getLastRed`. -/
def isDir (up_x up_y : Int) : Prop :=
  (up_x = 2 ∨ up_x = -2 ∨ up_x = 0) ∧ (up_y = 2 ∨ up_y = -2 ∨ up_y = 0) ∧
    ¬ (up_x = 0 ∧ up_y = 0)

instance (up_x up_y : Int) : Decidable (isDir up_x up_y) := by
  unfold isDir; infer_instance

/-- The positions of a rectangle in the words of the specification: every `(y, x)`
with `y_ini <= y <= y_fim` and `x_ini <= x <= x_fim`, in row-major order. -/
def specRectPixels (rect : Retangulo) : List (Int × Int) :=
  (List.range (rect.y_fim - rect.y_ini + 1).toNat).flatMap fun j =>
    (List.range (rect.x_fim - rect.x_ini + 1).toNat).map fun i =>
      (rect.y_ini + (j : Int), rect.x_ini + (i : Int))

/-- The points the specification has the rasterizer append: the display mapping
of every pixel of the rectangle whose red channel exceeds 200, in row-major
order, one point per pixel. -/
def specVet (frame : Mat) (rect : Retangulo) : List Ponto :=
  ((specRectPixels rect).filter fun p => decide ((frame.px p.1 p.2).c2 > 200)).map
    fun p => toScreen p.2 p.1

/-- The display abscissa in the words of the specification:
`round(camera_x * display_width / camera_width)` on exact rationals. -/
def specScreenX (x : Int) : Int := round ((x : ℚ) * 800 / 640)

/-- The display ordinate in the words of the specification:
`round(camera_y * display_height / camera_height)` on exact rationals. -/
def specScreenY (y : Int) : Int := round ((y : ℚ) * 600 / 480)

/-- The points the row scan of `getVet` appends on row `y` from column `x` over `n`
columns: the display mapping of each red pixel, left to right. -/
def vetRowPoints (frame : Mat) (y : Int) : Nat → Int → List Ponto
  | 0, _ => []
  | n + 1, x =>
    (if (frame.px y x).c2 > 200 then [toScreen x y] else [])
      ++ vetRowPoints frame y n (x + 1)

/-- The points the row loop of `getVet` appends over `m` rows from row `y`. -/
def vetRectPoints (frame : Mat) (rect : Retangulo) : Nat → Int → List Ponto
  | 0, _ => []
  | m + 1, y =>
    vetRowPoints frame y (rect.x_fim - rect.x_ini).toNat rect.x_ini
      ++ vetRectPoints frame rect m (y + 1)

/-- The points one run of `getVet` appends: the display mapping of the red pixels
with `y_ini <= y < y_fim` and `x_ini <= x < x_fim`, in row-major order. -/
def vetPoints (frame : Mat) (rect : Retangulo) : List Ponto :=
  vetRectPoints frame rect (rect.y_fim - rect.y_ini).toNat rect.y_ini

/-- Every position the loops of `getVet` visit is a position of the frame. -/
def Retangulo.readable (rect : Retangulo) (frame : Mat) : Prop :=
  ∀ y x : Int, rect.y_ini ≤ y → y < rect.y_fim → rect.x_ini ≤ x → x < rect.x_fim →
    frame.inFrame y x

/-- A frame of `rows` by `cols` pixels that is black except at the listed
`(y, x)` positions, where its red channel is 255. -/
def frameWith (rows cols : Nat) (reds : List (Int × Int)) : Mat :=
  { rows := rows, cols := cols,
    px := fun y x => if (y, x) ∈ reds then ⟨0, 0, 255⟩ else ⟨0, 0, 0⟩ }

/-! ## Lemmas on `getRed` -/

theorem Mat.at_of_inFrame {frame : Mat} {y x : Int} (h : frame.inFrame y x) :
    frame.at y x = .ok (frame.px y x) := by
  simp [Mat.at, h]

theorem Mat.at_of_not_inFrame {frame : Mat} {y x : Int} (h : ¬ frame.inFrame y x) :
    frame.at y x = .error .outOfBounds := by
  simp [Mat.at, h]

/-- The inner loop of `getRed` on a row of the frame: either the remaining
columns hold no red pixel and the loop runs out, or it returns at the first red
column with the result of `getRed.hit` there. -/
theorem getRed.scanRow_spec (frame : Mat) (point : Ponto) (out : List Ponto) (y : Int)
    (hy0 : 0 ≤ y) (hy1 : y < frame.rows) :
    ∀ (n : Nat) (x : Int), 0 ≤ x → x + n ≤ frame.cols →
      (getRed.scanRow frame point out y n x = .ok none ∧
        ∀ x1, x ≤ x1 → x1 < x + n → (frame.px y x1).c2 ≤ 200) ∨
      ∃ x0, x ≤ x0 ∧ x0 < x + n ∧ (frame.px y x0).c2 > 200 ∧
        (∀ x1, x ≤ x1 → x1 < x0 → (frame.px y x1).c2 ≤ 200) ∧
        getRed.scanRow frame point out y n x = .ok (some (getRed.hit point out y x0)) := by
  intro n
  induction n with
  | zero =>
    intro x _ _
    left
    refine ⟨rfl, ?_⟩
    intro x1 h1 h2
    simp at h2
    omega
  | succ n ih =>
    intro x hx0 hx1
    have hin : frame.inFrame y x := ⟨hy0, hy1, hx0, by push_cast at hx1; omega⟩
    by_cases hred : (frame.px y x).c2 > 200
    · right
      refine ⟨x, le_refl _, by push_cast; omega, hred, ?_, ?_⟩
      · intro x1 h1 h2; omega
      · simp [getRed.scanRow, Mat.at_of_inFrame hin, hred]
    · have hstep : getRed.scanRow frame point out y (n + 1) x
          = getRed.scanRow frame point out y n (x + 1) := by
        simp [getRed.scanRow, Mat.at_of_inFrame hin, hred]
      rcases ih (x + 1) (by omega) (by push_cast at hx1; omega) with ⟨h1, h2⟩ | ⟨x0, h1, h2, h3, h4, h5⟩
      · left
        refine ⟨by rw [hstep, h1], ?_⟩
        intro x1 hx1a hx1b
        by_cases hxe : x1 = x
        · subst hxe; omega
        · exact h2 x1 (by omega) (by push_cast at hx1b; omega)
      · right
        refine ⟨x0, by omega, by push_cast; omega, h3, ?_, by rw [hstep, h5]⟩
        intro x1 hx1a hx1b
        by_cases hxe : x1 = x
        · subst hxe; omega
        · exact h4 x1 (by omega) hx1b

/-- The outer loop of `getRed`: either the remaining rows hold no red pixel and
the loop runs out, or it returns at the first red pixel in row-major order. -/
theorem getRed.scanRows_spec (frame : Mat) (point : Ponto) (out : List Ponto) :
    ∀ (m : Nat) (y : Int), 0 ≤ y → y + m ≤ frame.rows →
      (getRed.scanRows frame point out m y = .ok none ∧
        ∀ y1 x1 : Int, y ≤ y1 → y1 < y + m → 0 ≤ x1 → x1 < frame.cols →
          (frame.px y1 x1).c2 ≤ 200) ∨
      ∃ y0 x0 : Int, y ≤ y0 ∧ y0 < y + m ∧ 0 ≤ x0 ∧ x0 < frame.cols ∧
        (frame.px y0 x0).c2 > 200 ∧
        (∀ y1 x1 : Int, y ≤ y1 → 0 ≤ x1 → x1 < frame.cols → rowMajorLt y1 x1 y0 x0 →
          (frame.px y1 x1).c2 ≤ 200) ∧
        getRed.scanRows frame point out m y = .ok (some (getRed.hit point out y0 x0)) := by
  intro m
  induction m with
  | zero =>
    intro y _ _
    left
    refine ⟨rfl, ?_⟩
    intro y1 x1 h1 h2
    simp at h2
    omega
  | succ m ih =>
    intro y hy0 hy1
    have hyr : y < frame.rows := by push_cast at hy1; omega
    rcases getRed.scanRow_spec frame point out y hy0 hyr frame.cols 0 (le_refl _) (by simp)
      with ⟨h1, h2⟩ | ⟨x0, h1, h2, h3, h4, h5⟩
    · have hstep : getRed.scanRows frame point out (m + 1) y
          = getRed.scanRows frame point out m (y + 1) := by
        simp [getRed.scanRows, h1]
      rcases ih (y + 1) (by omega) (by push_cast at hy1; omega)
        with ⟨g1, g2⟩ | ⟨y0, x0, g1, g2, g3, g4, g5, g6, g7⟩
      · left
        refine ⟨by rw [hstep, g1], ?_⟩
        intro y1 x1 a1 a2 a3 a4
        by_cases hye : y1 = y
        · subst hye; exact h2 x1 a3 (by omega)
        · exact g2 y1 x1 (by omega) (by push_cast at a2; omega) a3 a4
      · right
        refine ⟨y0, x0, by omega, by push_cast; omega, g3, g4, g5, ?_, by rw [hstep, g7]⟩
        intro y1 x1 a1 a3 a4 hlt
        by_cases hye : y1 = y
        · subst hye; exact h2 x1 a3 (by omega)
        · exact g6 y1 x1 (by omega) a3 a4 hlt
    · right
      refine ⟨y, x0, le_refl _, by push_cast; omega, h1, by omega, h3, ?_, ?_⟩
      · intro y1 x1 a1 a3 a4 hlt
        rcases hlt with hlt | ⟨hlt1, hlt2⟩
        · omega
        · subst hlt1; exact h4 x1 a3 hlt2
      · simp [getRed.scanRows, h5]

/-- The result of `getRed` on every frame: 0 with nothing changed when no pixel of the
frame is red, and otherwise what `getRed.hit` gives at the first red pixel. -/
theorem getRed_spec (frame : Mat) (point : Ponto) (out : List Ponto) :
    (getRed frame point out = .ok { ret := 0, point := point, out := out, xrefresh := false } ∧
      ∀ y x, frame.inFrame y x → (frame.px y x).c2 ≤ 200) ∨
    ∃ y0 x0, frame.firstRed y0 x0 ∧
      getRed frame point out = .ok (getRed.hit point out y0 x0) := by
  rcases getRed.scanRows_spec frame point out frame.rows 0 (le_refl _) (by simp)
    with ⟨g1, g2⟩ | ⟨y0, x0, g1, g2, g3, g4, g5, g6, g7⟩
  · left
    refine ⟨by simp [getRed, g1], ?_⟩
    rintro y x ⟨a1, a2, a3, a4⟩
    exact g2 y x a1 (by omega) a3 a4
  · right
    refine ⟨y0, x0, ⟨⟨⟨g1, by omega, g3, g4⟩, g5⟩, ?_⟩, by simp [getRed, g7]⟩
    rintro y1 x1 ⟨a1, a2, a3, a4⟩ hlt
    exact g6 y1 x1 a1 a3 a4 hlt

/-- A frame has at most one first red pixel. -/
theorem Mat.firstRed_unique {frame : Mat} {y x y1 x1 : Int}
    (h : frame.firstRed y x) (h1 : frame.firstRed y1 x1) : y = y1 ∧ x = x1 := by
  obtain ⟨⟨hin, hred⟩, hmin⟩ := h
  obtain ⟨⟨hin1, hred1⟩, hmin1⟩ := h1
  by_contra hne
  have hcases : rowMajorLt y x y1 x1 ∨ rowMajorLt y1 x1 y x := by
    unfold rowMajorLt
    omega
  rcases hcases with hlt | hlt
  · have := hmin1 y x hin hlt
    omega
  · have := hmin y1 x1 hin1 hlt
    omega

/-- On a frame whose first red pixel is `(y, x)`, `getRed` is `getRed.hit` there. -/
theorem getRed_of_firstRed {frame : Mat} {y x : Int} (h : frame.firstRed y x)
    (point : Ponto) (out : List Ponto) :
    getRed frame point out = .ok (getRed.hit point out y x) := by
  rcases getRed_spec frame point out with ⟨_, g2⟩ | ⟨y0, x0, g1, g2⟩
  · have := g2 y x h.1.1
    have := h.1.2
    omega
  · obtain ⟨e1, e2⟩ := Mat.firstRed_unique h g1
    subst e1; subst e2
    exact g2

/-- In a frame built by `frameWith`, a listed position of the frame that no other
listed position precedes in row-major order is the first red pixel. -/
theorem frameWith_firstRed (rows cols : Nat) (reds : List (Int × Int)) (y x : Int)
    (hin : (frameWith rows cols reds).inFrame y x) (hmem : (y, x) ∈ reds)
    (hmin : ∀ p ∈ reds, ¬ rowMajorLt p.1 p.2 y x) :
    (frameWith rows cols reds).firstRed y x := by
  refine ⟨⟨hin, by simp [frameWith, hmem]⟩, ?_⟩
  intro y1 x1 _ hlt
  by_cases hm : (y1, x1) ∈ reds
  · exact absurd hlt (hmin _ hm)
  · simp [frameWith, hm]

/-- The body of the `if` in `getRed` at a pixel passing the clean test. -/
theorem getRed.hit_clean (point : Ponto) (out : List Ponto) {y x : Int}
    (hy : y ≤ 64) (hx : x ≤ 64) :
    getRed.hit point out y x = { ret := 1, point := point, out := [], xrefresh := true } := by
  have e1 : y ≤ CATETO_CLEAN ∧ x ≤ CATETO_CLEAN := by
    simp only [CATETO_CLEAN]; exact ⟨hy, hx⟩
  rw [getRed.hit, if_pos e1]

/-- The body of the `if` in `getRed` at a pixel passing the close test. -/
theorem getRed.hit_close (point : Ponto) (out : List Ponto) {y x : Int}
    (hy : y ≤ 32) (hx : x > 608) :
    getRed.hit point out y x
      = { ret := -1, point := point, out := out, xrefresh := false } := by
  have e1 : ¬ (y ≤ CATETO_CLEAN ∧ x ≤ CATETO_CLEAN) := by
    simp only [CATETO_CLEAN]; omega
  have e2 : y ≤ CATETO_CLOSE ∧ x > CAMERA_RES_X - CATETO_CLOSE := by
    simp only [CATETO_CLOSE, CATETO_CLEAN, CAMERA_RES_X]; omega
  rw [getRed.hit, if_neg e1, if_pos e2]

/-- The body of the `if` in `getRed` at a pixel passing neither test. -/
theorem getRed.hit_found (point : Ponto) (out : List Ponto) {y x : Int}
    (h1 : ¬ (y ≤ 64 ∧ x ≤ 64)) (h2 : ¬ (y ≤ 32 ∧ x > 608)) :
    getRed.hit point out y x
      = { ret := 1, point := { x := x, y := y }, out := out, xrefresh := false } := by
  have e1 : ¬ (y ≤ CATETO_CLEAN ∧ x ≤ CATETO_CLEAN) := by
    simp only [CATETO_CLEAN]; exact h1
  have e2 : ¬ (y ≤ CATETO_CLOSE ∧ x > CAMERA_RES_X - CATETO_CLOSE) := by
    intro h
    simp only [CATETO_CLOSE, CATETO_CLEAN, CAMERA_RES_X] at h
    exact h2 ⟨by omega, by omega⟩
  rw [getRed.hit, if_neg e1, if_neg e2]

/-- The body of the `if` in `getRed` returns -1 exactly at the pixels passing the
close test. -/
theorem getRed.hit_ret_close (point : Ponto) (out : List Ponto) (y x : Int) :
    (getRed.hit point out y x).ret = -1 ↔ y ≤ 32 ∧ x > 608 := by
  constructor
  · intro h
    unfold getRed.hit at h
    by_cases h1 : y ≤ CATETO_CLEAN ∧ x ≤ CATETO_CLEAN
    · rw [if_pos h1] at h
      simp at h
    · rw [if_neg h1] at h
      by_cases h2 : y ≤ CATETO_CLOSE ∧ x > CAMERA_RES_X - CATETO_CLOSE
      · simp only [CATETO_CLOSE, CATETO_CLEAN, CAMERA_RES_X] at h2
        omega
      · rw [if_neg h2] at h
        simp at h
  · rintro ⟨hy, hx⟩
    rw [getRed.hit_close point out hy hx]

/-! ## Lemmas on `getLastRed` and `getRect` -/

/-- The `while` loop stops at once, whatever the fuel, on a pixel of the frame
that is not red. -/
theorem getLastRed.loop_not_red (frame : Mat) (up_x up_y : Int) (fuel : Nat) (s : Ray)
    (hin : frame.inFrame s.y_atual s.x_atual)
    (hred : (frame.px s.y_atual s.x_atual).c2 ≤ 200) :
    getLastRed.loop frame up_x up_y fuel s = .ok s := by
  have hnot : ¬ (frame.px s.y_atual s.x_atual).c2 > 200 := by omega
  cases fuel <;> simp [getLastRed.loop, Mat.at_of_inFrame hin, hnot]

/-- One ray from an isolated red seed: the body runs once, the next sample is not
red, and the degenerate rectangle at the seed is left as it is. -/
theorem getLastRed_isolated (frame : Mat) (sx sy up_x up_y : Int) (fuel : Nat)
    (hseed : frame.isRed sy sx) (hnext : frame.inFrame (sy + up_y) (sx + up_x))
    (hdark : (frame.px (sy + up_y) (sx + up_x)).c2 ≤ 200) :
    getLastRed (fuel + 1) frame ⟨sx, sy⟩ up_x up_y ⟨sx, sx, sy, sy⟩
      = .ok ⟨sx, sx, sy, sy⟩ := by
  obtain ⟨hin, hred⟩ := hseed
  obtain ⟨n1, n2, n3, n4⟩ := hnext
  have hloop : getLastRed.loop frame up_x up_y (fuel + 1) ⟨sx, sy, sx, sx, sy, sy⟩
      = .ok ⟨sx + up_x, sy + up_y, sx, sx, sy, sy⟩ := by
    rw [getLastRed.loop]
    simp only [Mat.at_of_inFrame hin, hred, if_true, getLastRed.track, lt_irrefl,
      gt_iff_lt, if_false]
    rw [if_pos ⟨by omega, n4⟩, if_pos ⟨by omega, n2⟩]
    exact getLastRed.loop_not_red frame up_x up_y fuel _ ⟨n1, n2, n3, n4⟩ hdark
  simp [getLastRed, hloop, getLastRed.merge]

/-- The `while` loop along one of the eight step vectors, started inside the frame
with running bounds inside the frame and fuel for half the frame side, returns,
and its final bounds are inside the frame and enclose the initial ones. -/
theorem getLastRed.loop_bounds (frame : Mat) (up_x up_y : Int) (hdir : isDir up_x up_y) :
    ∀ (fuel : Nat) (s : Ray), frame.inFrame s.y_atual s.x_atual →
      0 ≤ s.min_x → s.max_x < frame.cols → 0 ≤ s.min_y → s.max_y < frame.rows →
      (up_x = 2 → (frame.cols : Int) - s.x_atual ≤ 2 * fuel) →
      (up_x = -2 → s.x_atual + 1 ≤ 2 * fuel) →
      (up_x = 0 → up_y = 2 → (frame.rows : Int) - s.y_atual ≤ 2 * fuel) →
      (up_x = 0 → up_y = -2 → s.y_atual + 1 ≤ 2 * fuel) →
      ∃ t, getLastRed.loop frame up_x up_y fuel s = .ok t ∧
        0 ≤ t.min_x ∧ t.min_x ≤ s.min_x ∧ s.max_x ≤ t.max_x ∧ t.max_x < frame.cols ∧
        0 ≤ t.min_y ∧ t.min_y ≤ s.min_y ∧ s.max_y ≤ t.max_y ∧ t.max_y < frame.rows := by
  obtain ⟨hdx, hdy, hne⟩ := hdir
  intro fuel
  induction fuel with
  | zero =>
    intro s hin b1 b2 b3 b4 f1 f2 f3 f4
    obtain ⟨i1, i2, i3, i4⟩ := hin
    exfalso
    simp only [Nat.cast_zero, mul_zero] at f1 f2 f3 f4
    omega
  | succ fuel ih =>
    intro s hin b1 b2 b3 b4 f1 f2 f3 f4
    by_cases hred : (frame.px s.y_atual s.x_atual).c2 > 200
    · obtain ⟨i1, i2, i3, i4⟩ := hin
      push_cast at f1 f2 f3 f4
      rw [getLastRed.loop]
      simp only [Mat.at_of_inFrame ⟨i1, i2, i3, i4⟩, hred, if_true, getLastRed.track]
      by_cases hx : s.x_atual + up_x ≥ 0 ∧ s.x_atual + up_x < frame.cols
      · rw [if_pos hx]
        by_cases hy : s.y_atual + up_y ≥ 0 ∧ s.y_atual + up_y < frame.rows
        · rw [if_pos hy]
          obtain ⟨t, ht, c1, c2, c3, c4, c5, c6, c7, c8⟩ := ih
            { x_atual := s.x_atual + up_x, y_atual := s.y_atual + up_y,
              max_x := if s.max_x < s.x_atual then s.x_atual else s.max_x,
              min_x := if s.min_x > s.x_atual then s.x_atual else s.min_x,
              max_y := if s.max_y < s.y_atual then s.y_atual else s.max_y,
              min_y := if s.min_y > s.y_atual then s.y_atual else s.min_y }
            ⟨hy.1, hy.2, hx.1, hx.2⟩
            (by dsimp only; split_ifs <;> omega) (by dsimp only; split_ifs <;> omega)
            (by dsimp only; split_ifs <;> omega) (by dsimp only; split_ifs <;> omega)
            (by intro h; have := f1 h; dsimp only; omega)
            (by intro h; have := f2 h; dsimp only; omega)
            (by intro h h1; have := f3 h h1; dsimp only; omega)
            (by intro h h1; have := f4 h h1; dsimp only; omega)
          dsimp only at c1 c2 c3 c4 c5 c6 c7 c8
          refine ⟨t, ht, c1, ?_, ?_, c4, c5, ?_, ?_, c8⟩
          · split_ifs at c2 <;> omega
          · split_ifs at c3 <;> omega
          · split_ifs at c6 <;> omega
          · split_ifs at c7 <;> omega
        · rw [if_neg hy]
          refine ⟨_, rfl, ?_⟩
          dsimp only
          refine ⟨?_, ?_, ?_, ?_, ?_, ?_, ?_, ?_⟩ <;> split_ifs <;> omega
      · rw [if_neg hx]
        refine ⟨_, rfl, ?_⟩
        dsimp only
        refine ⟨?_, ?_, ?_, ?_, ?_, ?_, ?_, ?_⟩ <;> split_ifs <;> omega
    · rw [getLastRed.loop_not_red frame up_x up_y _ s hin (by omega)]
      exact ⟨s, rfl, b1, le_refl _, le_refl _, b2, b3, le_refl _, le_refl _, b4⟩

/-- One call of `getLastRed` from a seed of the frame, on a rectangle inside the frame
that contains the seed, with fuel for half the longer frame side: it returns a
rectangle inside the frame that encloses the given one. -/
theorem getLastRed_within (frame : Mat) (point : Ponto) (up_x up_y : Int) (fuel : Nat)
    (out : Retangulo) (hdir : isDir up_x up_y)
    (hc : (frame.cols : Int) ≤ 2 * fuel) (hr : (frame.rows : Int) ≤ 2 * fuel)
    (hin : frame.inFrame point.y point.x) (hout : out.within frame point) :
    ∃ r, getLastRed fuel frame point up_x up_y out = .ok r ∧ r.within frame point ∧
      r.x_ini ≤ out.x_ini ∧ out.x_fim ≤ r.x_fim ∧
      r.y_ini ≤ out.y_ini ∧ out.y_fim ≤ r.y_fim := by
  obtain ⟨i1, i2, i3, i4⟩ := hin
  obtain ⟨⟨o1, o2, o3, o4⟩, o5, o6, o7, o8⟩ := hout
  obtain ⟨t, ht, c1, c2, c3, c4, c5, c6, c7, c8⟩ :=
    getLastRed.loop_bounds frame up_x up_y hdir fuel
      { x_atual := point.x, y_atual := point.y,
        max_x := point.x, min_x := point.x, max_y := point.y, min_y := point.y }
      ⟨i1, i2, i3, i4⟩ i3 i4 i1 i2
      (by intro _; dsimp only; omega) (by intro _; dsimp only; omega)
      (by intro _ _; dsimp only; omega) (by intro _ _; dsimp only; omega)
  dsimp only at c1 c2 c3 c4 c5 c6 c7 c8
  refine ⟨getLastRed.merge t out, by simp only [getLastRed, ht], ?_⟩
  simp only [getLastRed.merge, Retangulo.within]
  refine ⟨⟨⟨?_, ?_, ?_, ?_⟩, ?_, ?_, ?_, ?_⟩, ?_, ?_, ?_, ?_⟩ <;> split_ifs <;> omega

/-- The eight rays of `getRect` from a seed of the frame, with fuel for half the
longer frame side, return a rectangle inside the frame that contains the seed. -/
theorem getRect.rays_within (frame : Mat) (point : Ponto) (fuel : Nat)
    (hc : (frame.cols : Int) ≤ 2 * fuel) (hr : (frame.rows : Int) ≤ 2 * fuel)
    (hin : frame.inFrame point.y point.x) :
    ∃ r, getRect.rays fuel frame point = .ok r ∧ r.within frame point := by
  have h0 : Retangulo.within ⟨point.x, point.x, point.y, point.y⟩ frame point := by
    obtain ⟨i1, i2, i3, i4⟩ := hin
    exact ⟨⟨i3, le_refl _, le_refl _, i4⟩, i1, le_refl _, le_refl _, i2⟩
  obtain ⟨r1, e1, w1, _⟩ := getLastRed_within frame point 2 0 fuel _ (by decide) hc hr hin h0
  obtain ⟨r2, e2, w2, _⟩ := getLastRed_within frame point (-2) 0 fuel _ (by decide) hc hr hin w1
  obtain ⟨r3, e3, w3, _⟩ := getLastRed_within frame point 0 2 fuel _ (by decide) hc hr hin w2
  obtain ⟨r4, e4, w4, _⟩ := getLastRed_within frame point 0 (-2) fuel _ (by decide) hc hr hin w3
  obtain ⟨r5, e5, w5, _⟩ := getLastRed_within frame point 2 2 fuel _ (by decide) hc hr hin w4
  obtain ⟨r6, e6, w6, _⟩ := getLastRed_within frame point (-2) 2 fuel _ (by decide) hc hr hin w5
  obtain ⟨r7, e7, w7, _⟩ := getLastRed_within frame point 2 (-2) fuel _ (by decide) hc hr hin w6
  obtain ⟨r8, e8, w8, _⟩ :=
    getLastRed_within frame point (-2) (-2) fuel _ (by decide) hc hr hin w7
  refine ⟨r8, ?_, w8⟩
  simp only [getRect.rays, bind, Except.bind, e1, e2, e3, e4, e5, e6, e7, e8]

/-- The padding step keeps a rectangle inside the frame and around the point. -/
theorem getRect.pad_within (frame : Mat) (point : Ponto) (r : Retangulo)
    (h : r.within frame point) : (getRect.pad frame r).within frame point := by
  obtain ⟨⟨o1, o2, o3, o4⟩, o5, o6, o7, o8⟩ := h
  simp only [getRect.pad, Retangulo.within]
  refine ⟨⟨?_, ?_, ?_, ?_⟩, ?_, ?_, ?_, ?_⟩ <;> split_ifs <;> omega

/-- A running minimum updated at `x` is the old one or `x`, the sample 0 of a ray. -/
theorem ray_min_first (m x dx : Int) :
    (if m > x then x else m) = m ∨
      ∃ j : Nat, j < 1 ∧ (if m > x then x else m) = x + (j : Int) * dx := by
  by_cases hc : m > x
  · right
    refine ⟨0, by omega, ?_⟩
    simp only [Nat.cast_zero, zero_mul, add_zero]
    omega
  · left
    omega

/-- A running maximum updated at `x` is the old one or `x`, the sample 0 of a ray. -/
theorem ray_max_first (m x dx : Int) :
    (if m < x then x else m) = m ∨
      ∃ j : Nat, j < 1 ∧ (if m < x then x else m) = x + (j : Int) * dx := by
  by_cases hc : m < x
  · right
    refine ⟨0, by omega, ?_⟩
    simp only [Nat.cast_zero, zero_mul, add_zero]
    omega
  · left
    omega

/-- An extreme attained on the rest of a ray is attained on the ray. -/
theorem ray_min_step {t m x dx : Int} {n : Nat}
    (h : t = (if m > x then x else m) ∨
      ∃ j : Nat, j < n ∧ t = x + ((j + 1 : Nat) : Int) * dx) :
    t = m ∨ ∃ j : Nat, j < n + 1 ∧ t = x + (j : Int) * dx := by
  rcases h with h | ⟨j, hj, h⟩
  · rcases ray_min_first m x dx with h1 | ⟨j, hj, h1⟩
    · exact Or.inl (h.trans h1)
    · exact Or.inr ⟨j, by omega, h.trans h1⟩
  · exact Or.inr ⟨j + 1, by omega, h⟩

/-- An extreme attained on the rest of a ray is attained on the ray. -/
theorem ray_max_step {t m x dx : Int} {n : Nat}
    (h : t = (if m < x then x else m) ∨
      ∃ j : Nat, j < n ∧ t = x + ((j + 1 : Nat) : Int) * dx) :
    t = m ∨ ∃ j : Nat, j < n + 1 ∧ t = x + (j : Int) * dx := by
  rcases h with h | ⟨j, hj, h⟩
  · rcases ray_max_first m x dx with h1 | ⟨j, hj, h1⟩
    · exact Or.inl (h.trans h1)
    · exact Or.inr ⟨j, by omega, h.trans h1⟩
  · exact Or.inr ⟨j + 1, by omega, h⟩

/-- The run of the `while` loop along one of the eight step vectors, from a position
of the frame with fuel for half the frame side.  The loop returns after `n` runs
of its body, `n <= fuel`, where the samples `0 .. n-1` (start plus `j` steps) are red
pixels of the frame and sample `n` is not; the final bounds enclose the initial
ones and every counted sample, and each is the initial bound or a counted
sample; the positions read are the samples `0 .. n-1` and, when it is in the
frame, sample `n`. -/
theorem getLastRed.loop_run (frame : Mat) (dx dy : Int) (hdir : isDir dx dy) :
    ∀ (fuel : Nat) (x y Mx mx My my : Int), frame.inFrame y x →
      (dx = 2 → (frame.cols : Int) - x ≤ 2 * fuel) →
      (dx = -2 → x + 1 ≤ 2 * fuel) →
      (dx = 0 → dy = 2 → (frame.rows : Int) - y ≤ 2 * fuel) →
      (dx = 0 → dy = -2 → y + 1 ≤ 2 * fuel) →
      ∃ (n : Nat) (t : Ray),
        getLastRed.loop frame dx dy fuel ⟨x, y, Mx, mx, My, my⟩ = .ok t ∧ n ≤ fuel ∧
        (∀ j : Nat, j < n → frame.isRed (y + j * dy) (x + j * dx)) ∧
        ¬ frame.isRed (y + n * dy) (x + n * dx) ∧
        (∀ j : Nat, j < n → t.min_x ≤ x + j * dx ∧ x + j * dx ≤ t.max_x ∧
          t.min_y ≤ y + j * dy ∧ y + j * dy ≤ t.max_y) ∧
        (t.min_x = mx ∨ ∃ j : Nat, j < n ∧ t.min_x = x + j * dx) ∧
        (t.max_x = Mx ∨ ∃ j : Nat, j < n ∧ t.max_x = x + j * dx) ∧
        (t.min_y = my ∨ ∃ j : Nat, j < n ∧ t.min_y = y + j * dy) ∧
        (t.max_y = My ∨ ∃ j : Nat, j < n ∧ t.max_y = y + j * dy) ∧
        (t.min_x ≤ mx ∧ Mx ≤ t.max_x ∧ t.min_y ≤ my ∧ My ≤ t.max_y) ∧
        getLastRed.reads frame dx dy fuel ⟨x, y, Mx, mx, My, my⟩ =
          (List.range n).map (fun j : Nat => (y + j * dy, x + j * dx)) ++
            (if frame.inFrame (y + n * dy) (x + n * dx)
              then [(y + n * dy, x + n * dx)] else []) := by
  obtain ⟨hdx, hdy, hne⟩ := hdir
  intro fuel
  induction fuel with
  | zero =>
    intro x y Mx mx My my hin f1 f2 f3 f4
    obtain ⟨i1, i2, i3, i4⟩ := hin
    exfalso
    simp only [Nat.cast_zero, mul_zero] at f1 f2 f3 f4
    omega
  | succ fuel ih =>
    intro x y Mx mx My my hin f1 f2 f3 f4
    by_cases hred : (frame.px y x).c2 > 200
    · have hloop : getLastRed.loop frame dx dy (fuel + 1) ⟨x, y, Mx, mx, My, my⟩
          = if x + dx ≥ 0 ∧ x + dx < frame.cols then
              if y + dy ≥ 0 ∧ y + dy < frame.rows then
                getLastRed.loop frame dx dy fuel
                  ⟨x + dx, y + dy, if Mx < x then x else Mx, if mx > x then x else mx,
                    if My < y then y else My, if my > y then y else my⟩
              else .ok ⟨x + dx, y, if Mx < x then x else Mx, if mx > x then x else mx,
                    if My < y then y else My, if my > y then y else my⟩
            else .ok ⟨x, y, if Mx < x then x else Mx, if mx > x then x else mx,
                    if My < y then y else My, if my > y then y else my⟩ := by
        rw [getLastRed.loop]
        simp only [Mat.at_of_inFrame hin, hred, if_true, getLastRed.track]
      have hreads : getLastRed.reads frame dx dy (fuel + 1) ⟨x, y, Mx, mx, My, my⟩
          = (y, x) :: if x + dx ≥ 0 ∧ x + dx < frame.cols then
              if y + dy ≥ 0 ∧ y + dy < frame.rows then
                getLastRed.reads frame dx dy fuel
                  ⟨x + dx, y + dy, if Mx < x then x else Mx, if mx > x then x else mx,
                    if My < y then y else My, if my > y then y else my⟩
              else []
            else [] := by
        rw [getLastRed.reads]
        simp only [Mat.at_of_inFrame hin, hred, if_true, getLastRed.track]
      have hpos0 : ∀ j : Nat, j < 1 →
          frame.isRed (y + (j : Int) * dy) (x + (j : Int) * dx) := by
        intro j hj
        obtain rfl : j = 0 := by omega
        simp only [Nat.cast_zero, zero_mul, add_zero]
        exact ⟨hin, hred⟩
      by_cases hx : x + dx ≥ 0 ∧ x + dx < frame.cols
      · by_cases hy : y + dy ≥ 0 ∧ y + dy < frame.rows
        · obtain ⟨n, t, hl, hn, hredj, hnred, hb, a1, a2, a3, a4, hmono, hrd⟩ :=
            ih (x + dx) (y + dy) (if Mx < x then x else Mx) (if mx > x then x else mx)
              (if My < y then y else My) (if my > y then y else my)
              ⟨hy.1, hy.2, hx.1, hx.2⟩
              (by intro h; have := f1 h; push_cast at this; omega)
              (by intro h; have := f2 h; push_cast at this; omega)
              (by intro h h1; have := f3 h h1; push_cast at this; omega)
              (by intro h h1; have := f4 h h1; push_cast at this; omega)
          have ex : ∀ j : Nat, x + dx + (j : Int) * dx = x + ((j + 1 : Nat) : Int) * dx := by
            intro j; push_cast; ring
          have ey : ∀ j : Nat, y + dy + (j : Int) * dy = y + ((j + 1 : Nat) : Int) * dy := by
            intro j; push_cast; ring
          simp only [ex, ey] at hredj hnred hb a1 a2 a3 a4 hrd
          refine ⟨n + 1, t, by rw [hloop, if_pos hx, if_pos hy]; exact hl, by omega,
            ?_, hnred, ?_, ?_, ?_, ?_, ?_, ?_, ?_⟩
          · intro j hj
            cases j with
            | zero => exact hpos0 0 (by omega)
            | succ i => exact hredj i (by omega)
          · intro j hj
            cases j with
            | zero =>
              clear a1 a2 a3 a4 hredj hnred hb hrd
              simp only [Nat.cast_zero, zero_mul, add_zero]
              omega
            | succ i => exact hb i (by omega)
          · exact ray_min_step a1
          · exact ray_max_step a2
          · exact ray_min_step a3
          · exact ray_max_step a4
          · clear a1 a2 a3 a4 hredj hnred hb hrd
            omega
          · rw [hreads, if_pos hx, if_pos hy, hrd, List.range_succ_eq_map, List.map_cons,
              List.map_map]
            simp only [Nat.cast_zero, zero_mul, add_zero, List.cons_append]
            rfl
        · have hout : ¬ frame.inFrame (y + ((1 : Nat) : Int) * dy) (x + ((1 : Nat) : Int) * dx) := by
            rintro ⟨h1, h2, _, _⟩
            simp only [Nat.cast_one, one_mul] at h1 h2
            exact hy ⟨h1, h2⟩
          refine ⟨1, _, by rw [hloop, if_pos hx, if_neg hy], by omega, hpos0,
            fun h => hout h.1, ?_, ?_, ?_, ?_, ?_, ?_, ?_⟩
          · intro j hj
            obtain rfl : j = 0 := by omega
            simp only [Nat.cast_zero, zero_mul, add_zero]
            omega
          · exact ray_min_first mx x dx
          · exact ray_max_first Mx x dx
          · exact ray_min_first my y dy
          · exact ray_max_first My y dy
          · dsimp only
            omega
          · rw [hreads, if_pos hx, if_neg hy, if_neg hout]
            simp [List.range_succ]
      · have hout : ¬ frame.inFrame (y + ((1 : Nat) : Int) * dy) (x + ((1 : Nat) : Int) * dx) := by
          rintro ⟨_, _, h3, h4⟩
          simp only [Nat.cast_one, one_mul] at h3 h4
          exact hx ⟨h3, h4⟩
        refine ⟨1, _, by rw [hloop, if_neg hx], by omega, hpos0,
          fun h => hout h.1, ?_, ?_, ?_, ?_, ?_, ?_, ?_⟩
        · intro j hj
          obtain rfl : j = 0 := by omega
          simp only [Nat.cast_zero, zero_mul, add_zero]
          omega
        · exact ray_min_first mx x dx
        · exact ray_max_first Mx x dx
        · exact ray_min_first my y dy
        · exact ray_max_first My y dy
        · dsimp only
          omega
        · rw [hreads, if_neg hx, if_neg hout]
          simp [List.range_succ]
    · have hnr : ¬ frame.isRed (y + ((0 : Nat) : Int) * dy) (x + ((0 : Nat) : Int) * dx) := by
        simp only [Nat.cast_zero, zero_mul, add_zero]
        exact fun h => hred h.2
      have hl := getLastRed.loop_not_red frame dx dy (fuel + 1) ⟨x, y, Mx, mx, My, my⟩ hin
        (by dsimp only; omega)
      refine ⟨0, _, hl, by omega, fun j hj => absurd hj (by omega), hnr,
        fun j hj => absurd hj (by omega), Or.inl rfl, Or.inl rfl, Or.inl rfl, Or.inl rfl,
        ⟨le_refl _, le_refl _, le_refl _, le_refl _⟩, ?_⟩
      rw [getLastRed.reads]
      simp [Mat.at_of_inFrame hin, hred, hin]

/-- The merge of lines 138-146 only moves the sides of the rectangle outwards. -/
theorem getLastRed.merge_encloses (t : Ray) (out : Retangulo) :
    (getLastRed.merge t out).encloses out := by
  simp only [getLastRed.merge, Retangulo.encloses]
  refine ⟨?_, ?_, ?_, ?_⟩ <;> split_ifs <;> omega

/-- The padding of lines 171-179 only moves the sides of the rectangle outwards. -/
theorem getRect.pad_encloses (frame : Mat) (q : Retangulo) :
    (getRect.pad frame q).encloses q := by
  simp only [getRect.pad, Retangulo.encloses]
  refine ⟨?_, ?_, ?_, ?_⟩ <;> split_ifs <;> omega

/-- One call of `getLastRed` from a seed of the frame, with fuel for half the longer
frame side, returns a rectangle that encloses the one it was given. -/
theorem getLastRed_expands (frame : Mat) (point : Ponto) (up_x up_y : Int) (fuel : Nat)
    (out : Retangulo) (hdir : isDir up_x up_y)
    (hc : (frame.cols : Int) ≤ 2 * fuel) (hr : (frame.rows : Int) ≤ 2 * fuel)
    (hin : frame.inFrame point.y point.x) :
    ∃ r, getLastRed fuel frame point up_x up_y out = .ok r ∧ r.encloses out := by
  obtain ⟨i1, i2, i3, i4⟩ := hin
  obtain ⟨t, ht, _⟩ :=
    getLastRed.loop_bounds frame up_x up_y hdir fuel
      { x_atual := point.x, y_atual := point.y,
        max_x := point.x, min_x := point.x, max_y := point.y, min_y := point.y }
      ⟨i1, i2, i3, i4⟩ i3 i4 i1 i2
      (by intro _; dsimp only; omega) (by intro _; dsimp only; omega)
      (by intro _ _; dsimp only; omega) (by intro _ _; dsimp only; omega)
  exact ⟨getLastRed.merge t out, by simp only [getLastRed, ht],
    getLastRed.merge_encloses t out⟩

/-- The length of a run of red samples is determined by the frame. -/
theorem red_run_unique {P : Nat → Prop} {n m : Nat}
    (hn : ∀ j, j < n → P j) (hn1 : ¬ P n) (hm : ∀ j, j < m → P j) (hm1 : ¬ P m) :
    n = m := by
  rcases Nat.lt_trichotomy n m with h | h | h
  · exact absurd (hm n h) hn1
  · exact h
  · exact absurd (hn m h) hm1

/-! ## Lemmas on the display mapping of `getVet` -/

theorem wrapInt32_range (v : Int) :
    -2147483648 ≤ wrapInt32 v ∧ wrapInt32 v < 2147483648 := by
  unfold wrapInt32; omega

theorem wrapInt32_of_range {v : Int} (h0 : -2147483648 ≤ v) (h1 : v < 2147483648) :
    wrapInt32 v = v := by
  unfold wrapInt32; omega

/-- A 32-bit value divided (truncating) by 480 or more has magnitude below `2^24`. -/
theorem tdiv_magnitude (w d : Int) (hd : 480 ≤ d) (h0 : -2147483648 ≤ w)
    (h1 : w < 2147483648) :
    -16777216 < Int.tdiv w d ∧ Int.tdiv w d < 16777216 := by
  have hd0 : 0 < d := by omega
  rcases le_or_lt 0 w with hw | hw
  · rw [Int.tdiv_eq_ediv hw (le_of_lt hd0)]
    constructor
    · have := Int.ediv_nonneg hw (le_of_lt hd0); omega
    · apply Int.ediv_lt_of_lt_mul hd0; omega
  · have e : Int.tdiv w d = -(Int.tdiv (-w) d) := by
      rw [Int.neg_tdiv, neg_neg]
    rw [e, Int.tdiv_eq_ediv (by omega) (le_of_lt hd0)]
    constructor
    · have : (-w) / d < 16777216 := by apply Int.ediv_lt_of_lt_mul hd0; omega
      omega
    · have := Int.ediv_nonneg (show 0 ≤ -w by omega) (le_of_lt hd0); omega

/-- The arguments `roundf` receives at lines 89-90 are integers of magnitude below
`2^24`, which `float` represents exactly: this is what `roundfInt` relies on. -/
theorem roundf_argument_exact (v : Int) :
    (-16777216 < Int.tdiv (wrapInt32 (v * RES_X)) CAMERA_RES_X ∧
      Int.tdiv (wrapInt32 (v * RES_X)) CAMERA_RES_X < 16777216) ∧
    (-16777216 < Int.tdiv (wrapInt32 (v * RES_Y)) CAMERA_RES_Y ∧
      Int.tdiv (wrapInt32 (v * RES_Y)) CAMERA_RES_Y < 16777216) :=
  ⟨tdiv_magnitude _ _ (by decide) (wrapInt32_range _).1 (wrapInt32_range _).2,
    tdiv_magnitude _ _ (by decide) (wrapInt32_range _).1 (wrapInt32_range _).2⟩

/-- On camera abscissas the mapping of line 89 is the quotient rounded down. -/
theorem screenX_eq_floor {x : Int} (h0 : 0 ≤ x) (h1 : x ≤ 640) :
    screenX x = x * 800 / 640 := by
  unfold screenX roundfInt RES_X CAMERA_RES_X
  rw [wrapInt32_of_range (by omega) (by omega), Int.tdiv_eq_ediv (by omega) (by decide)]

/-- On camera ordinates the mapping of line 90 is the quotient rounded down. -/
theorem screenY_eq_floor {y : Int} (h0 : 0 ≤ y) (h1 : y ≤ 480) :
    screenY y = y * 600 / 480 := by
  unfold screenY roundfInt RES_Y CAMERA_RES_Y
  rw [wrapInt32_of_range (by omega) (by omega), Int.tdiv_eq_ediv (by omega) (by decide)]

/-! ## Lemmas on the loops of `getVet` -/

theorem Mat.at_eq_ok {frame : Mat} {y x : Int} {v : Vec3b} (h : frame.at y x = .ok v) :
    frame.inFrame y x ∧ v = frame.px y x := by
  unfold Mat.at at h
  by_cases hin : frame.inFrame y x
  · rw [if_pos hin] at h
    cases h
    exact ⟨hin, rfl⟩
  · rw [if_neg hin] at h
    cases h

/-- Whenever the row scan of `getVet` returns, it has appended `vetRowPoints`. -/
theorem getVet.scanRow_of_ok (frame : Mat) (y : Int) :
    ∀ (n : Nat) (x : Int) (out res : List Ponto),
      getVet.scanRow frame y n x out = .ok res → res = out ++ vetRowPoints frame y n x := by
  intro n
  induction n with
  | zero =>
    intro x out res h
    simp only [getVet.scanRow] at h
    cases h
    simp [vetRowPoints]
  | succ n ih =>
    intro x out res h
    rw [getVet.scanRow] at h
    cases hat : frame.at y x with
    | error e => rw [hat] at h; cases h
    | ok v =>
      rw [hat] at h
      obtain ⟨_, rfl⟩ := Mat.at_eq_ok hat
      dsimp only at h
      by_cases hred : (frame.px y x).c2 > 200
      · rw [if_pos hred] at h
        rw [ih _ _ _ h, vetRowPoints, if_pos hred]
        simp
      · rw [if_neg hred] at h
        rw [ih _ _ _ h, vetRowPoints, if_neg hred]
        simp

/-- The row scan of `getVet` returns when every column it visits is in the frame. -/
theorem getVet.scanRow_eq (frame : Mat) (y : Int) :
    ∀ (n : Nat) (x : Int) (out : List Ponto),
      (∀ x1 : Int, x ≤ x1 → x1 < x + n → frame.inFrame y x1) →
      getVet.scanRow frame y n x out = .ok (out ++ vetRowPoints frame y n x) := by
  intro n
  induction n with
  | zero =>
    intro x out _
    simp [getVet.scanRow, vetRowPoints]
  | succ n ih =>
    intro x out hin
    have h0 : frame.inFrame y x := hin x (le_refl _) (by push_cast; omega)
    have hrest : ∀ x1 : Int, x + 1 ≤ x1 → x1 < x + 1 + n → frame.inFrame y x1 := by
      intro x1 h1 h2
      exact hin x1 (by omega) (by push_cast; omega)
    rw [getVet.scanRow, Mat.at_of_inFrame h0]
    dsimp only
    by_cases hred : (frame.px y x).c2 > 200
    · rw [if_pos hred, ih _ _ hrest, vetRowPoints, if_pos hred]
      simp
    · rw [if_neg hred, ih _ _ hrest, vetRowPoints, if_neg hred]
      simp

/-- Whenever the row loop of `getVet` returns, it has appended `vetRectPoints`. -/
theorem getVet.scanRows_of_ok (frame : Mat) (rect : Retangulo) :
    ∀ (m : Nat) (y : Int) (out res : List Ponto),
      getVet.scanRows frame rect m y out = .ok res →
      res = out ++ vetRectPoints frame rect m y := by
  intro m
  induction m with
  | zero =>
    intro y out res h
    simp only [getVet.scanRows] at h
    cases h
    simp [vetRectPoints]
  | succ m ih =>
    intro y out res h
    rw [getVet.scanRows] at h
    cases hrow : getVet.scanRow frame y (rect.x_fim - rect.x_ini).toNat rect.x_ini out with
    | error e => rw [hrow] at h; cases h
    | ok out1 =>
      rw [hrow] at h
      dsimp only at h
      rw [ih _ _ _ h, getVet.scanRow_of_ok _ _ _ _ _ _ hrow, vetRectPoints]
      simp

/-- The row loop of `getVet` returns when every position it visits is in the frame. -/
theorem getVet.scanRows_eq (frame : Mat) (rect : Retangulo) :
    ∀ (m : Nat) (y : Int) (out : List Ponto),
      (∀ y1 x1 : Int, y ≤ y1 → y1 < y + m → rect.x_ini ≤ x1 → x1 < rect.x_fim →
        frame.inFrame y1 x1) →
      getVet.scanRows frame rect m y out = .ok (out ++ vetRectPoints frame rect m y) := by
  intro m
  induction m with
  | zero =>
    intro y out _
    simp [getVet.scanRows, vetRectPoints]
  | succ m ih =>
    intro y out hin
    have hrow := getVet.scanRow_eq frame y (rect.x_fim - rect.x_ini).toNat rect.x_ini out
      (by
        intro x1 h1 h2
        exact hin y x1 (le_refl _) (by push_cast; omega) h1 (by omega))
    have hrest : ∀ y1 x1 : Int, y + 1 ≤ y1 → y1 < y + 1 + m → rect.x_ini ≤ x1 →
        x1 < rect.x_fim → frame.inFrame y1 x1 := by
      intro y1 x1 h1 h2 h3 h4
      exact hin y1 x1 (by omega) (by push_cast; omega) h3 h4
    rw [getVet.scanRows, hrow]
    dsimp only
    rw [ih _ _ hrest, vetRectPoints]
    simp

/-- Whenever `getVet` returns, the vector is the old one followed by `vetPoints`. -/
theorem getVet_of_ok {frame : Mat} {out res : List Ponto} {rect : Retangulo}
    (h : getVet frame out rect = .ok res) : res = out ++ vetPoints frame rect :=
  getVet.scanRows_of_ok frame rect _ _ _ _ h

/-- On a rectangle all of whose visited positions are in the frame, `getVet` returns
the old vector followed by `vetPoints`. -/
theorem getVet_eq (frame : Mat) (out : List Ponto) (rect : Retangulo)
    (h : rect.readable frame) :
    getVet frame out rect = .ok (out ++ vetPoints frame rect) := by
  unfold getVet vetPoints
  apply getVet.scanRows_eq
  intro y1 x1 h1 h2 h3 h4
  exact h y1 x1 h1 (by omega) h3 h4

/-- A rectangle of coordinates of the frame is readable. -/
theorem Retangulo.readable_of_le {rect : Retangulo} {frame : Mat}
    (hx0 : 0 ≤ rect.x_ini) (hx1 : rect.x_fim ≤ frame.cols)
    (hy0 : 0 ≤ rect.y_ini) (hy1 : rect.y_fim ≤ frame.rows) : rect.readable frame := by
  intro y x h1 h2 h3 h4
  exact ⟨by omega, by omega, by omega, by omega⟩

/-- Every point of `vetRowPoints` is the mapping of a red pixel of the scanned columns. -/
theorem mem_vetRowPoints (frame : Mat) (y : Int) (p : Ponto) :
    ∀ (n : Nat) (x : Int), p ∈ vetRowPoints frame y n x →
      ∃ x1 : Int, x ≤ x1 ∧ x1 < x + n ∧ (frame.px y x1).c2 > 200 ∧ p = toScreen x1 y := by
  intro n
  induction n with
  | zero =>
    intro x h
    simp [vetRowPoints] at h
  | succ n ih =>
    intro x h
    rw [vetRowPoints, List.mem_append] at h
    rcases h with h | h
    · by_cases hred : (frame.px y x).c2 > 200
      · rw [if_pos hred, List.mem_singleton] at h
        exact ⟨x, le_refl _, by push_cast; omega, hred, h⟩
      · rw [if_neg hred] at h
        simp at h
    · obtain ⟨x1, h1, h2, h3, h4⟩ := ih _ h
      exact ⟨x1, by omega, by push_cast; omega, h3, h4⟩

/-- Every point of `vetRectPoints` is the mapping of a red pixel of the scanned rows. -/
theorem mem_vetRectPoints (frame : Mat) (rect : Retangulo) (p : Ponto) :
    ∀ (m : Nat) (y : Int), p ∈ vetRectPoints frame rect m y →
      ∃ y1 x1 : Int, y ≤ y1 ∧ y1 < y + m ∧ rect.x_ini ≤ x1 ∧ x1 < rect.x_fim ∧
        (frame.px y1 x1).c2 > 200 ∧ p = toScreen x1 y1 := by
  intro m
  induction m with
  | zero =>
    intro y h
    simp [vetRectPoints] at h
  | succ m ih =>
    intro y h
    rw [vetRectPoints, List.mem_append] at h
    rcases h with h | h
    · obtain ⟨x1, h1, h2, h3, h4⟩ := mem_vetRowPoints frame y p _ _ h
      exact ⟨y, x1, le_refl _, by push_cast; omega, h1, by omega, h3, h4⟩
    · obtain ⟨y1, x1, h1, h2, h3, h4, h5, h6⟩ := ih _ h
      exact ⟨y1, x1, by omega, by push_cast; omega, h3, h4, h5, h6⟩

/-- Every point one run of `getVet` appends is the mapping of a red pixel with
`y_ini <= y < y_fim` and `x_ini <= x < x_fim`. -/
theorem mem_vetPoints {frame : Mat} {rect : Retangulo} {p : Ponto}
    (h : p ∈ vetPoints frame rect) :
    ∃ y x : Int, rect.y_ini ≤ y ∧ y < rect.y_fim ∧ rect.x_ini ≤ x ∧ x < rect.x_fim ∧
      (frame.px y x).c2 > 200 ∧ p = toScreen x y := by
  obtain ⟨y1, x1, h1, h2, h3, h4, h5, h6⟩ := mem_vetRectPoints frame rect p _ _ h
  exact ⟨y1, x1, h1, by omega, h3, h4, h5, h6⟩

/-! ## Lemmas on the loop iteration -/

/-- The iteration when `getRed` returns 1: `getRect` and `getVet` run on the point
and the trail `getRed` left, and the paint pass is reached. -/
theorem mainIter_of_ret_one (fuel : Nat) (frame : Mat) (s : LoopState) (r : RedResult)
    (rect : Retangulo) (out : List Ponto)
    (hget : getRed frame s.point s.framePoints = .ok r) (hret : r.ret = 1)
    (hrect : getRect fuel frame r.point = .ok rect)
    (hvet : getVet frame r.out rect = .ok out) :
    mainIter fuel frame s
      = .ok { state := { point := r.point, rect := rect, framePoints := out },
              stop := false, xrefresh := r.xrefresh.toNat } := by
  unfold mainIter
  rw [hget]
  dsimp only
  rw [if_pos hret, hrect]
  dsimp only
  rw [hvet]

/-- The three ways the body of the `if` in `getRed` can go. -/
theorem getRed.hit_cases (point : Ponto) (out : List Ponto) (y x : Int) :
    getRed.hit point out y x = { ret := 1, point := point, out := [], xrefresh := true } ∨
    getRed.hit point out y x
      = { ret := -1, point := point, out := out, xrefresh := false } ∨
    getRed.hit point out y x
      = { ret := 1, point := { x := x, y := y }, out := out, xrefresh := false } := by
  by_cases h1 : y ≤ 64 ∧ x ≤ 64
  · exact Or.inl (getRed.hit_clean point out h1.1 h1.2)
  · by_cases h2 : y ≤ 32 ∧ x > 608
    · exact Or.inr (Or.inl (getRed.hit_close point out h2.1 h2.2))
    · exact Or.inr (Or.inr (getRed.hit_found point out h1 h2))

/-- When the result of `getRed` reads as Found, it is 1 with the point set to the first
red pixel of the frame and the trail as it was. -/
theorem getRed_found_inv {frame : Mat} {point p : Ponto} {out : List Ponto} {r : RedResult}
    (hget : getRed frame point out = .ok r) (hfound : r.scan = Scan.Found p) :
    ∃ y x, frame.firstRed y x ∧
      r = { ret := 1, point := { x := x, y := y }, out := out, xrefresh := false } := by
  rcases getRed_spec frame point out with ⟨g1, _⟩ | ⟨y0, x0, g1, g2⟩
  · rw [g1] at hget
    cases hget
    simp [RedResult.scan] at hfound
  · rw [g2] at hget
    cases hget
    rcases getRed.hit_cases point out y0 x0 with h | h | h
    · rw [h] at hfound
      simp [RedResult.scan] at hfound
    · rw [h] at hfound
      simp [RedResult.scan] at hfound
    · exact ⟨y0, x0, g1, h⟩

/-- The iteration on a frame whose scan reads as Found, with fuel for half the longer
frame side: `getRect` and `getVet` return, and the trail is the old one followed
by the points of the rectangle. -/
theorem mainIter_found (fuel : Nat) (frame : Mat) (s : LoopState) (r : RedResult)
    (hc : (frame.cols : Int) ≤ 2 * fuel) (hr : (frame.rows : Int) ≤ 2 * fuel)
    (hget : getRed frame s.point s.framePoints = .ok r)
    (hfound : r.scan = Scan.Found r.point) :
    ∃ rect, getRect fuel frame r.point = .ok rect ∧ rect.within frame r.point ∧
      frame.firstRed r.point.y r.point.x ∧
      mainIter fuel frame s
        = .ok { state := { point := r.point, rect := rect,
                           framePoints := s.framePoints ++ vetPoints frame rect },
                stop := false, xrefresh := 0 } := by
  obtain ⟨y, x, hfirst, rfl⟩ := getRed_found_inv hget hfound
  obtain ⟨r0, hrays, hw⟩ := getRect.rays_within frame ⟨x, y⟩ fuel hc hr hfirst.1.1
  have hp := getRect.pad_within frame ⟨x, y⟩ r0 hw
  have hrect : getRect fuel frame ⟨x, y⟩ = .ok (getRect.pad frame r0) := by
    simp only [getRect, hrays]
  have hread : (getRect.pad frame r0).readable frame :=
    Retangulo.readable_of_le hp.1.1 (le_of_lt hp.1.2.2.2) hp.2.1 (le_of_lt hp.2.2.2.2)
  refine ⟨getRect.pad frame r0, hrect, hp, hfirst, ?_⟩
  exact mainIter_of_ret_one fuel frame s _ _ _ hget rfl hrect
    (getVet_eq frame s.framePoints _ hread)

/-! ## The claims -/

/-- C1: on a frame in which no pixel has a red channel above 200, `getRed` returns 0
and leaves the point and the trail as they were, and the whole loop iteration
for that frame reaches the paint pass with every variable, the trail included,
equal to what it was before. -/
theorem C1_no_red_trail_unchanged (frame : Mat) (point : Ponto) (out : List Ponto)
    (fuel : Nat) (s : LoopState)
    (h : ∀ y x, frame.inFrame y x → (frame.px y x).c2 ≤ 200) :
    getRed frame point out
        = .ok { ret := 0, point := point, out := out, xrefresh := false } ∧
      mainIter fuel frame s = .ok { state := s, stop := false, xrefresh := 0 } := by
  have key : ∀ (p : Ponto) (o : List Ponto),
      getRed frame p o = .ok { ret := 0, point := p, out := o, xrefresh := false } := by
    intro p o
    rcases getRed_spec frame p o with ⟨g1, _⟩ | ⟨y0, x0, g1, _⟩
    · exact g1
    · have := h y0 x0 g1.1.1
      have := g1.1.2
      omega
  refine ⟨key point out, ?_⟩
  simp [mainIter, key s.point s.framePoints]

/-- C1 at a 640x480 frame whose every pixel has red channel exactly 200, with a
trail of two points. -/
theorem C1_no_red_trail_unchanged_witness :
    (∀ y x, (Mat.mk 480 640 (fun _ _ => ⟨10, 20, 200⟩)).inFrame y x →
        ((Mat.mk 480 640 (fun _ _ => ⟨10, 20, 200⟩)).px y x).c2 ≤ 200) ∧
      getRed (Mat.mk 480 640 (fun _ _ => ⟨10, 20, 200⟩)) ⟨7, 8⟩ [⟨1, 2⟩, ⟨3, 4⟩]
        = .ok { ret := 0, point := ⟨7, 8⟩, out := [⟨1, 2⟩, ⟨3, 4⟩], xrefresh := false } ∧
      mainIter 321 (Mat.mk 480 640 (fun _ _ => ⟨10, 20, 200⟩))
          ⟨⟨7, 8⟩, ⟨4, 10, 5, 11⟩, [⟨1, 2⟩, ⟨3, 4⟩]⟩
        = .ok { state := ⟨⟨7, 8⟩, ⟨4, 10, 5, 11⟩, [⟨1, 2⟩, ⟨3, 4⟩]⟩,
                stop := false, xrefresh := 0 } :=
  ⟨fun _ _ _ => by simp,
    C1_no_red_trail_unchanged _ ⟨7, 8⟩ [⟨1, 2⟩, ⟨3, 4⟩] 321
      ⟨⟨7, 8⟩, ⟨4, 10, 5, 11⟩, [⟨1, 2⟩, ⟨3, 4⟩]⟩ (fun _ _ _ => by simp)⟩

/-- C2: on a frame with at least one pixel of red channel above 200, there is a first
such pixel `(y, x)` in row-major order (every earlier pixel has red at most 200) and
`getRed` is decided by it alone: its result is the body of the `if` at `(y, x)`, the
same on every other frame with that first red pixel.  When `(y, x)` passes neither
zone test (`y <= 64 && x <= 64`, `y <= 32 && x > 608`), `getRed` returns 1, sets the
point to `(x, y)` and leaves the trail as it was. -/
theorem C2_first_red_pixel_decides (frame : Mat) (point : Ponto) (out : List Ponto)
    (hex : ∃ y x, frame.isRed y x) :
    ∃ y x, frame.firstRed y x ∧
      getRed frame point out = .ok (getRed.hit point out y x) ∧
      (∀ other : Mat, other.firstRed y x →
        getRed other point out = getRed frame point out) ∧
      (¬ (y ≤ 64 ∧ x ≤ 64) → ¬ (y ≤ 32 ∧ x > 608) →
        getRed frame point out
          = .ok { ret := 1, point := { x := x, y := y }, out := out, xrefresh := false }) := by
  obtain ⟨ya, xa, hina, hreda⟩ := hex
  rcases getRed_spec frame point out with ⟨_, g2⟩ | ⟨y0, x0, g1, g2⟩
  · have := g2 ya xa hina
    omega
  · refine ⟨y0, x0, g1, g2, ?_, ?_⟩
    · intro other ho
      rw [getRed_of_firstRed ho, g2]
    · intro hz1 hz2
      rw [g2, getRed.hit_found point out hz1 hz2]

/-- C2 at the 640x480 frame whose red pixels are `(x, y) = (320, 240)` and
`(321, 240)`. -/
theorem C2_first_red_pixel_decides_witness :
    (∃ y x, (frameWith 480 640 [(240, 321), (240, 320)]).isRed y x) ∧
    ∃ y x, (frameWith 480 640 [(240, 321), (240, 320)]).firstRed y x ∧
      getRed (frameWith 480 640 [(240, 321), (240, 320)]) ⟨7, 8⟩ [⟨1, 2⟩]
        = .ok (getRed.hit ⟨7, 8⟩ [⟨1, 2⟩] y x) ∧
      (∀ other : Mat, other.firstRed y x →
        getRed other ⟨7, 8⟩ [⟨1, 2⟩]
          = getRed (frameWith 480 640 [(240, 321), (240, 320)]) ⟨7, 8⟩ [⟨1, 2⟩]) ∧
      (¬ (y ≤ 64 ∧ x ≤ 64) → ¬ (y ≤ 32 ∧ x > 608) →
        getRed (frameWith 480 640 [(240, 321), (240, 320)]) ⟨7, 8⟩ [⟨1, 2⟩]
          = .ok { ret := 1, point := { x := x, y := y }, out := [⟨1, 2⟩],
                  xrefresh := false }) :=
  ⟨⟨240, 321, by decide⟩,
    C2_first_red_pixel_decides _ ⟨7, 8⟩ [⟨1, 2⟩] ⟨240, 321, by decide⟩⟩

/-- C3 (the code at a failing input): a first 640x480 frame with red pixels at
`(x, y) = (100, 100)` and `(101, 100)` leaves, from an empty trail, the point
`(100, 100)` and the trail `[(125, 125), (126, 125)]`.  The next frame has red pixels
at `(10, 10)` and `(100, 100)`: the scan result is Clear and `getRed` empties the
trail, but it returns 1, so the iteration goes on to `getRect` and `getVet` with the
earlier point, and the paint pass iterates over a trail of length 1, not 0. -/
theorem C3_clear_then_paint_nonempty :
    (∀ (p0 : Ponto) (r0 : Retangulo),
      mainIter 321 (frameWith 480 640 [(100, 100), (100, 101)]) ⟨p0, r0, []⟩
        = .ok { state := ⟨⟨100, 100⟩, ⟨97, 103, 97, 103⟩, [⟨125, 125⟩, ⟨126, 125⟩]⟩,
                stop := false, xrefresh := 0 }) ∧
    (frameWith 480 640 [(10, 10), (100, 100)]).firstRed 10 10 ∧
    (∃ r, getRed (frameWith 480 640 [(10, 10), (100, 100)]) ⟨100, 100⟩
            [⟨125, 125⟩, ⟨126, 125⟩] = .ok r ∧
          r.scan = Scan.Clear ∧ r.out = []) ∧
    ∃ res, mainIter 321 (frameWith 480 640 [(10, 10), (100, 100)])
            ⟨⟨100, 100⟩, ⟨97, 103, 97, 103⟩, [⟨125, 125⟩, ⟨126, 125⟩]⟩ = .ok res ∧
          res.painted = some [⟨125, 125⟩] ∧
          res.state.framePoints.length = 1 := by
  have hprev : (frameWith 480 640 [(100, 100), (100, 101)]).firstRed 100 100 :=
    frameWith_firstRed 480 640 _ 100 100 (by decide) (by decide) (by decide)
  have hfirst : (frameWith 480 640 [(10, 10), (100, 100)]).firstRed 10 10 :=
    frameWith_firstRed 480 640 _ 10 10 (by decide) (by decide) (by decide)
  have hget := getRed_of_firstRed hfirst ⟨100, 100⟩ [⟨125, 125⟩, ⟨126, 125⟩]
  rw [getRed.hit_clean _ _ (by decide) (by decide)] at hget
  refine ⟨?_, hfirst, ⟨_, hget, rfl, rfl⟩, ?_⟩
  · intro p0 r0
    have hg0 := getRed_of_firstRed hprev p0 []
    rw [getRed.hit_found p0 [] (by decide) (by decide)] at hg0
    have hrect : getRect 321 (frameWith 480 640 [(100, 100), (100, 101)]) ⟨100, 100⟩
        = .ok ⟨97, 103, 97, 103⟩ := rfl
    have hvet : getVet (frameWith 480 640 [(100, 100), (100, 101)]) [] ⟨97, 103, 97, 103⟩
        = .ok [⟨125, 125⟩, ⟨126, 125⟩] := rfl
    exact mainIter_of_ret_one 321 _ ⟨p0, r0, []⟩ _ _ _ hg0 rfl hrect hvet
  · have hrect : getRect 321 (frameWith 480 640 [(10, 10), (100, 100)]) ⟨100, 100⟩
        = .ok ⟨97, 103, 97, 103⟩ := rfl
    have hvet : getVet (frameWith 480 640 [(10, 10), (100, 100)]) [] ⟨97, 103, 97, 103⟩
        = .ok [⟨125, 125⟩] := rfl
    refine ⟨⟨⟨⟨100, 100⟩, ⟨97, 103, 97, 103⟩, [⟨125, 125⟩]⟩, false, 1⟩, ?_, rfl, rfl⟩
    exact mainIter_of_ret_one 321 _
      ⟨⟨100, 100⟩, ⟨97, 103, 97, 103⟩, [⟨125, 125⟩, ⟨126, 125⟩]⟩ _ _ _ hget rfl hrect hvet

/-- C4 (the code at a failing input): in the 640x480 frame whose only red pixel is
`(x, y) = (64, 64)`, that pixel is the first red one and lies outside the 64x64
square `0 <= x < 64`, `0 <= y < 64`, yet `getRed` takes the clean branch (`<=` against
the square size 64): the scan result is Clear. -/
theorem C4_clear_at_64_64 (point : Ponto) (out : List Ponto) :
    (frameWith 480 640 [(64, 64)]).firstRed 64 64 ∧
    ¬ specClearZone 64 64 ∧
    ∃ r, getRed (frameWith 480 640 [(64, 64)]) point out = .ok r ∧
      r = { ret := 1, point := point, out := [], xrefresh := true } ∧
      r.scan = Scan.Clear := by
  have hfirst : (frameWith 480 640 [(64, 64)]).firstRed 64 64 :=
    frameWith_firstRed 480 640 _ 64 64 (by decide) (by decide) (by decide)
  have hget := getRed_of_firstRed hfirst point out
  rw [getRed.hit_clean _ _ (by decide) (by decide)] at hget
  exact ⟨hfirst, by decide, _, hget, rfl, rfl⟩

/-- C5: on a frame whose first red pixel `(x, y)` passes the test
`y <= 64 && x <= 64` of the code, `getRed` returns 1 with the trail emptied whatever it
held, the point not written, and the refresh run. -/
theorem C5_clean_empties_trail (frame : Mat) (y x : Int) (point : Ponto)
    (out : List Ponto) (hfirst : frame.firstRed y x) (hy : y ≤ 64) (hx : x ≤ 64) :
    getRed frame point out
      = .ok { ret := 1, point := point, out := [], xrefresh := true } := by
  rw [getRed_of_firstRed hfirst, getRed.hit_clean point out hy hx]

/-- C5 at the 640x480 frame whose only red pixel is `(x, y) = (10, 10)`, with a
trail of three points. -/
theorem C5_clean_empties_trail_witness :
    (frameWith 480 640 [(10, 10)]).firstRed 10 10 ∧ (10 : Int) ≤ 64 ∧
    getRed (frameWith 480 640 [(10, 10)]) ⟨7, 8⟩ [⟨1, 2⟩, ⟨3, 4⟩, ⟨5, 6⟩]
      = .ok { ret := 1, point := ⟨7, 8⟩, out := [], xrefresh := true } :=
  ⟨frameWith_firstRed 480 640 _ 10 10 (by decide) (by decide) (by decide), by decide,
    C5_clean_empties_trail _ 10 10 ⟨7, 8⟩ [⟨1, 2⟩, ⟨3, 4⟩, ⟨5, 6⟩]
      (frameWith_firstRed 480 640 _ 10 10 (by decide) (by decide) (by decide))
      (by decide) (by decide)⟩

/-- C6: on a 640-wide frame, `getRed` returns -1 exactly when the frame has a red
pixel and the first one in row-major order has `y <= 32` and `x > 608`; then `getRed`
leaves the trail and the point as they were, and the loop iteration takes `break`
with the trail emptied and the refresh run once. -/
theorem C6_close_iff (frame : Mat) (s : LoopState) (fuel : Nat)
    (hcols : frame.cols = 640) :
    ((∃ r, getRed frame s.point s.framePoints = .ok r ∧ r.ret = -1) ↔
      ∃ y x, frame.firstRed y x ∧ y ≤ 32 ∧ x > 608 ∧ x < 640) ∧
    ((∃ r, getRed frame s.point s.framePoints = .ok r ∧ r.ret = -1) →
      getRed frame s.point s.framePoints
        = .ok { ret := -1, point := s.point, out := s.framePoints, xrefresh := false } ∧
      mainIter fuel frame s
        = .ok { state := { s with framePoints := [] }, stop := true, xrefresh := 1 }) := by
  have hback : ∀ y x, frame.firstRed y x → y ≤ 32 → x > 608 →
      getRed frame s.point s.framePoints
        = .ok { ret := -1, point := s.point, out := s.framePoints, xrefresh := false } := by
    intro y x hfirst hy hx
    rw [getRed_of_firstRed hfirst, getRed.hit_close _ _ hy hx]
  have hfwd : (∃ r, getRed frame s.point s.framePoints = .ok r ∧ r.ret = -1) →
      ∃ y x, frame.firstRed y x ∧ y ≤ 32 ∧ x > 608 ∧ x < 640 := by
    rintro ⟨r, hr, hret⟩
    rcases getRed_spec frame s.point s.framePoints with ⟨g1, _⟩ | ⟨y0, x0, g1, g2⟩
    · rw [g1] at hr
      cases hr
      simp at hret
    · rw [g2] at hr
      cases hr
      have hz := (getRed.hit_ret_close _ _ _ _).1 hret
      have hlt := g1.1.1.2.2.2
      rw [hcols] at hlt
      exact ⟨y0, x0, g1, hz.1, hz.2, by exact_mod_cast hlt⟩
  refine ⟨⟨hfwd, ?_⟩, ?_⟩
  · rintro ⟨y, x, hfirst, hy, hx, _⟩
    exact ⟨_, hback y x hfirst hy hx, rfl⟩
  · intro h
    obtain ⟨y, x, hfirst, hy, hx, _⟩ := hfwd h
    have hget := hback y x hfirst hy hx
    refine ⟨hget, ?_⟩
    simp [mainIter, hget]

/-- C6 at the 640x480 frame whose only red pixel is `(x, y) = (620, 10)`: `getRed`
returns -1 and the iteration ends the loop with the trail empty. -/
theorem C6_close_iff_witness :
    (frameWith 480 640 [(10, 620)]).cols = 640 ∧
    (frameWith 480 640 [(10, 620)]).firstRed 10 620 ∧
    getRed (frameWith 480 640 [(10, 620)]) ⟨7, 8⟩ [⟨1, 2⟩, ⟨3, 4⟩]
      = .ok { ret := -1, point := ⟨7, 8⟩, out := [⟨1, 2⟩, ⟨3, 4⟩], xrefresh := false } ∧
    mainIter 321 (frameWith 480 640 [(10, 620)]) ⟨⟨7, 8⟩, ⟨4, 10, 5, 11⟩, [⟨1, 2⟩, ⟨3, 4⟩]⟩
      = .ok { state := ⟨⟨7, 8⟩, ⟨4, 10, 5, 11⟩, []⟩, stop := true, xrefresh := 1 } :=
  have hfirst : (frameWith 480 640 [(10, 620)]).firstRed 10 620 :=
    frameWith_firstRed 480 640 _ 10 620 (by decide) (by decide) (by decide)
  have h := C6_close_iff (frameWith 480 640 [(10, 620)])
    ⟨⟨7, 8⟩, ⟨4, 10, 5, 11⟩, [⟨1, 2⟩, ⟨3, 4⟩]⟩ 321 rfl
  have hret := h.1.2 ⟨10, 620, hfirst, by decide, by decide, by decide⟩
  ⟨rfl, hfirst, (h.2 hret).1, (h.2 hret).2⟩

/-- C7: for a red seed `(sx, sy)` at least 3 pixels away from every side of the frame,
none of whose eight neighbours at offsets `(+-2, 0)`, `(0, +-2)`, `(+-2, +-2)` is red,
`getRect` (with fuel for one pass of the loop body or more) returns the rectangle
`{sx-3, sx+3, sy-3, sy+3}`. -/
theorem C7_isolated_seed_rect (frame : Mat) (sx sy : Int) (fuel : Nat)
    (hfuel : 1 ≤ fuel)
    (hx0 : 3 ≤ sx) (hx1 : sx < frame.cols - 3) (hy0 : 3 ≤ sy) (hy1 : sy < frame.rows - 3)
    (hseed : (frame.px sy sx).c2 > 200)
    (hiso : ∀ dx dy : Int, isDir dx dy → (frame.px (sy + dy) (sx + dx)).c2 ≤ 200) :
    getRect fuel frame ⟨sx, sy⟩
      = .ok { x_ini := sx - 3, x_fim := sx + 3, y_ini := sy - 3, y_fim := sy + 3 } := by
  obtain ⟨n, rfl⟩ : ∃ n, fuel = n + 1 := ⟨fuel - 1, by omega⟩
  have hred : frame.isRed sy sx := ⟨⟨by omega, by omega, by omega, by omega⟩, hseed⟩
  have hray : ∀ dx dy : Int, isDir dx dy →
      getLastRed (n + 1) frame ⟨sx, sy⟩ dx dy ⟨sx, sx, sy, sy⟩ = .ok ⟨sx, sx, sy, sy⟩ := by
    intro dx dy hd
    have hdark := hiso dx dy hd
    obtain ⟨hdx, hdy, _⟩ := hd
    exact getLastRed_isolated frame sx sy dx dy n hred
      ⟨by omega, by omega, by omega, by omega⟩ hdark
  have hrays : getRect.rays (n + 1) frame ⟨sx, sy⟩ = .ok ⟨sx, sx, sy, sy⟩ := by
    simp only [getRect.rays, bind, Except.bind, hray 2 0 (by decide),
      hray (-2) 0 (by decide), hray 0 2 (by decide), hray 0 (-2) (by decide),
      hray 2 2 (by decide), hray (-2) 2 (by decide), hray 2 (-2) (by decide),
      hray (-2) (-2) (by decide)]
  have e1 : sx - 3 ≥ 0 := by omega
  have e2 : sy - 3 ≥ 0 := by omega
  have e3 : sx + 3 < frame.cols := by omega
  have e4 : sy + 3 < frame.rows := by omega
  simp [getRect, hrays, getRect.pad, e1, e2, e3, e4]

/-- C7 at the 640x480 frame whose only red pixel is the seed `(320, 240)`: the
rectangle is `{317, 323, 237, 243}`. -/
theorem C7_isolated_seed_rect_witness :
    (((frameWith 480 640 [(240, 320)]).px 240 320).c2 > 200 ∧
      ∀ dx dy : Int, isDir dx dy →
        ((frameWith 480 640 [(240, 320)]).px (240 + dy) (320 + dx)).c2 ≤ 200) ∧
    getRect 321 (frameWith 480 640 [(240, 320)]) ⟨320, 240⟩
      = .ok { x_ini := 317, x_fim := 323, y_ini := 237, y_fim := 243 } :=
  have hiso : ∀ dx dy : Int, isDir dx dy →
      ((frameWith 480 640 [(240, 320)]).px (240 + dy) (320 + dx)).c2 ≤ 200 := by
    rintro dx dy ⟨hdx, hdy, hne⟩
    have hm : ¬ (dy = 0 ∧ dx = 0) := by omega
    simp [frameWith, hm]
  ⟨⟨by decide, hiso⟩,
    C7_isolated_seed_rect (frameWith 480 640 [(240, 320)]) 320 240 321 (by decide)
      (by decide) (by decide) (by decide) (by decide) (by decide) hiso⟩

/-- C8: for every frame and every seed `(sx, sy)` of the frame, `getRect` (with fuel
for half the longer side of the frame) returns a rectangle with
`0 <= x_ini <= sx <= x_fim < cols` and `0 <= y_ini <= sy <= y_fim < rows`: it lies
inside the frame, contains the seed, and has `x_ini <= x_fim`, `y_ini <= y_fim`. -/
theorem C8_rect_inside_frame_around_seed (frame : Mat) (sx sy : Int) (fuel : Nat)
    (hc : (frame.cols : Int) ≤ 2 * fuel) (hr : (frame.rows : Int) ≤ 2 * fuel)
    (hx0 : 0 ≤ sx) (hx1 : sx < frame.cols) (hy0 : 0 ≤ sy) (hy1 : sy < frame.rows) :
    ∃ r, getRect fuel frame ⟨sx, sy⟩ = .ok r ∧
      (0 ≤ r.x_ini ∧ r.x_ini ≤ sx ∧ sx ≤ r.x_fim ∧ r.x_fim < frame.cols) ∧
      (0 ≤ r.y_ini ∧ r.y_ini ≤ sy ∧ sy ≤ r.y_fim ∧ r.y_fim < frame.rows) ∧
      r.x_ini ≤ r.x_fim ∧ r.y_ini ≤ r.y_fim := by
  obtain ⟨r, hrays, hw⟩ :=
    getRect.rays_within frame ⟨sx, sy⟩ fuel hc hr ⟨hy0, hy1, hx0, hx1⟩
  have hp := getRect.pad_within frame ⟨sx, sy⟩ r hw
  refine ⟨getRect.pad frame r, by simp only [getRect, hrays], hp.1, hp.2, ?_, ?_⟩
  · exact le_trans hp.1.2.1 hp.1.2.2.1
  · exact le_trans hp.2.2.1 hp.2.2.2.1

/-- C8 at a 640x480 frame with a red streak reaching the right and bottom sides,
seed `(636, 478)`. -/
theorem C8_rect_inside_frame_around_seed_witness :
    ((640 : Int) ≤ 2 * (321 : Nat) ∧ (0 : Int) ≤ 636 ∧ (636 : Int) < 640 ∧
      (0 : Int) ≤ 478 ∧ (478 : Int) < 480) ∧
    ∃ r, getRect 321 (frameWith 480 640 [(478, 636), (478, 638), (476, 634)]) ⟨636, 478⟩
        = .ok r ∧
      (0 ≤ r.x_ini ∧ r.x_ini ≤ 636 ∧ 636 ≤ r.x_fim ∧
        r.x_fim < (frameWith 480 640 [(478, 636), (478, 638), (476, 634)]).cols) ∧
      (0 ≤ r.y_ini ∧ r.y_ini ≤ 478 ∧ 478 ≤ r.y_fim ∧
        r.y_fim < (frameWith 480 640 [(478, 636), (478, 638), (476, 634)]).rows) ∧
      r.x_ini ≤ r.x_fim ∧ r.y_ini ≤ r.y_fim :=
  ⟨by decide,
    C8_rect_inside_frame_around_seed
      (frameWith 480 640 [(478, 636), (478, 638), (476, 634)]) 636 478 321
      (by decide) (by decide) (by decide) (by decide) (by decide) (by decide)⟩

/-- C9 (the code at a failing input): in the 640x480 frame whose only red pixel is
`(x, y) = (639, 100)`, `getRect` from that seed returns `{636, 639, 97, 103}` (no room
to pad on the right), a rectangle inside the frame that contains the red pixel.
The loops of `getVet` stop before `x_fim` and `y_fim`, so column 639 is never visited
and nothing is appended, while the red pixels of the rectangle are the one point
`(798, 125)`. -/
theorem C9_getVet_skips_last_column :
    getRect 321 (frameWith 480 640 [(100, 639)]) ⟨639, 100⟩ = .ok ⟨636, 639, 97, 103⟩ ∧
    Retangulo.within ⟨636, 639, 97, 103⟩ (frameWith 480 640 [(100, 639)]) ⟨639, 100⟩ ∧
    (frameWith 480 640 [(100, 639)]).isRed 100 639 ∧
    getVet (frameWith 480 640 [(100, 639)]) [⟨1, 2⟩] ⟨636, 639, 97, 103⟩ = .ok [⟨1, 2⟩] ∧
    specVet (frameWith 480 640 [(100, 639)]) ⟨636, 639, 97, 103⟩ = [⟨798, 125⟩] := by
  refine ⟨rfl, by decide, by decide, rfl, by decide⟩

/-- C10 (the code at a failing input): for the camera pixel `(323, 243)` the exact
scalings are 403.75 and 303.75, whose nearest integers are 404 and 304, but line 89
divides in `int` before `roundf` sees the value, so `getVet` appends `(403, 303)`. -/
theorem C10_mapping_truncates :
    screenX 323 = 403 ∧ specScreenX 323 = 404 ∧
    screenY 243 = 303 ∧ specScreenY 243 = 304 ∧
    getVet (frameWith 480 640 [(243, 323)]) [] ⟨320, 326, 240, 246⟩
      = .ok [⟨403, 303⟩] := by
  refine ⟨by decide, ?_, by decide, ?_, rfl⟩
  · unfold specScreenX
    rw [round_eq]
    norm_num [Int.floor_eq_iff]
  · unfold specScreenY
    rw [round_eq]
    norm_num [Int.floor_eq_iff]

/-- C11: wherever the product `x * 800` (resp. `y * 600`) fits an `int` and is divisible
by 640 (resp. 480), the mapping of `getVet` yields exactly the quotient; in
particular camera `(0, 0)` maps to display `(0, 0)` and camera `(640, 480)` to
`(800, 600)`. -/
theorem C11_mapping_exact_on_integers (x y : Int)
    (hx : -2147483648 ≤ x * 800 ∧ x * 800 < 2147483648) (hxd : 640 ∣ x * 800)
    (hy : -2147483648 ≤ y * 600 ∧ y * 600 < 2147483648) (hyd : 480 ∣ y * 600) :
    (toScreen x y).x * 640 = x * 800 ∧ (toScreen x y).y * 480 = y * 600 ∧
    ((toScreen x y).x : ℚ) = (x : ℚ) * 800 / 640 ∧
    ((toScreen x y).y : ℚ) = (y : ℚ) * 600 / 480 ∧
    toScreen 0 0 = ⟨0, 0⟩ ∧ toScreen 640 480 = ⟨800, 600⟩ := by
  have ex : (toScreen x y).x * 640 = x * 800 := by
    obtain ⟨k, hk⟩ := hxd
    simp only [toScreen, screenX, roundfInt, RES_X, CAMERA_RES_X]
    rw [wrapInt32_of_range hx.1 hx.2, hk, Int.mul_tdiv_cancel_left k (by decide)]
    ring
  have ey : (toScreen x y).y * 480 = y * 600 := by
    obtain ⟨k, hk⟩ := hyd
    simp only [toScreen, screenY, roundfInt, RES_Y, CAMERA_RES_Y]
    rw [wrapInt32_of_range hy.1 hy.2, hk, Int.mul_tdiv_cancel_left k (by decide)]
    ring
  refine ⟨ex, ey, ?_, ?_, by decide, by decide⟩
  · have h : ((toScreen x y).x : ℚ) * 640 = (x : ℚ) * 800 := by exact_mod_cast ex
    rw [eq_div_iff (by norm_num)]
    exact h
  · have h : ((toScreen x y).y : ℚ) * 480 = (y : ℚ) * 600 := by exact_mod_cast ey
    rw [eq_div_iff (by norm_num)]
    exact h

/-- C11 at the camera pixel `(320, 240)`, which maps to `(400, 300)`. -/
theorem C11_mapping_exact_on_integers_witness :
    ((640 : Int) ∣ 320 * 800 ∧ (480 : Int) ∣ 240 * 600) ∧
    (toScreen 320 240).x * 640 = 320 * 800 ∧ (toScreen 320 240).y * 480 = 240 * 600 ∧
    ((toScreen 320 240).x : ℚ) = ((320 : Int) : ℚ) * 800 / 640 ∧
    ((toScreen 320 240).y : ℚ) = ((240 : Int) : ℚ) * 600 / 480 ∧
    toScreen 0 0 = ⟨0, 0⟩ ∧ toScreen 640 480 = ⟨800, 600⟩ :=
  ⟨⟨by decide, by decide⟩,
    C11_mapping_exact_on_integers 320 240 (by decide) (by decide) (by decide) (by decide)⟩

/-- C12: on a rectangle of coordinates of the frame, one run of `getVet` appends a
sequence `P` that does not depend on the trail, so two runs in a row on the same
frame and rectangle turn the trail `t` into `t ++ P ++ P`: the second run appends
the same points in the same order, and the result differs from that of a single
run whenever `P` is not empty. -/
theorem C12_getVet_twice_appends_twice (frame : Mat) (rect : Retangulo) (t : List Ponto)
    (hx0 : 0 ≤ rect.x_ini) (hx1 : rect.x_fim ≤ frame.cols)
    (hy0 : 0 ≤ rect.y_ini) (hy1 : rect.y_fim ≤ frame.rows) :
    ∃ P, getVet frame [] rect = .ok P ∧
      getVet frame t rect = .ok (t ++ P) ∧
      getVet frame (t ++ P) rect = .ok (t ++ P ++ P) ∧
      (P ≠ [] → t ++ P ++ P ≠ t ++ P) := by
  have hread := Retangulo.readable_of_le hx0 hx1 hy0 hy1
  refine ⟨vetPoints frame rect, ?_, getVet_eq frame t rect hread,
    getVet_eq frame _ rect hread, ?_⟩
  · have h := getVet_eq frame [] rect hread
    rw [List.nil_append] at h
    exact h
  · intro hne heq
    apply hne
    have hlen := congrArg List.length heq
    simp only [List.length_append] at hlen
    exact List.length_eq_zero.1 (by omega)

/-- C12 at the 640x480 frame with red pixels `(100, 100)` and `(101, 100)`, the
rectangle `{97, 103, 97, 103}` and a trail of one point. -/
theorem C12_getVet_twice_appends_twice_witness :
    ((0 : Int) ≤ 97 ∧ (103 : Int) ≤ (640 : Nat) ∧ (103 : Int) ≤ (480 : Nat)) ∧
    ∃ P, getVet (frameWith 480 640 [(100, 100), (100, 101)]) [] ⟨97, 103, 97, 103⟩ = .ok P ∧
      getVet (frameWith 480 640 [(100, 100), (100, 101)]) [⟨1, 2⟩] ⟨97, 103, 97, 103⟩
        = .ok ([⟨1, 2⟩] ++ P) ∧
      getVet (frameWith 480 640 [(100, 100), (100, 101)]) ([⟨1, 2⟩] ++ P)
          ⟨97, 103, 97, 103⟩ = .ok ([⟨1, 2⟩] ++ P ++ P) ∧
      (P ≠ [] → [⟨1, 2⟩] ++ P ++ P ≠ [⟨1, 2⟩] ++ P) :=
  ⟨by decide,
    C12_getVet_twice_appends_twice (frameWith 480 640 [(100, 100), (100, 101)])
      ⟨97, 103, 97, 103⟩ [⟨1, 2⟩] (by decide) (by decide) (by decide) (by decide)⟩

/-- C13: in a loop iteration whose scan result is Found (with fuel for half the longer
frame side), `getRect` and `getVet` return, the paint pass is reached, and the trail
after the iteration is the trail before it followed by the new points: the old
trail is a prefix of the new one. -/
theorem C13_found_iteration_extends_trail (fuel : Nat) (frame : Mat) (s : LoopState)
    (r : RedResult)
    (hc : (frame.cols : Int) ≤ 2 * fuel) (hr : (frame.rows : Int) ≤ 2 * fuel)
    (hget : getRed frame s.point s.framePoints = .ok r)
    (hfound : r.scan = Scan.Found r.point) :
    ∃ res P, mainIter fuel frame s = .ok res ∧ res.stop = false ∧
      res.state.framePoints = s.framePoints ++ P ∧
      s.framePoints <+: res.state.framePoints := by
  obtain ⟨rect, _, _, _, hiter⟩ := mainIter_found fuel frame s r hc hr hget hfound
  exact ⟨_, vetPoints frame rect, hiter, rfl, rfl, List.prefix_append _ _⟩

/-- C13 at the 640x480 frame with red pixels `(100, 100)` and `(101, 100)` and a trail
of one point. -/
theorem C13_found_iteration_extends_trail_witness :
    (getRed (frameWith 480 640 [(100, 100), (100, 101)]) ⟨7, 8⟩ [⟨1, 2⟩]
        = .ok ⟨1, ⟨100, 100⟩, [⟨1, 2⟩], false⟩ ∧
      RedResult.scan ⟨1, ⟨100, 100⟩, [⟨1, 2⟩], false⟩ = Scan.Found ⟨100, 100⟩) ∧
    ∃ res P, mainIter 321 (frameWith 480 640 [(100, 100), (100, 101)])
          ⟨⟨7, 8⟩, ⟨0, 0, 0, 0⟩, [⟨1, 2⟩]⟩ = .ok res ∧ res.stop = false ∧
      res.state.framePoints = [⟨1, 2⟩] ++ P ∧
      [⟨1, 2⟩] <+: res.state.framePoints :=
  have hget : getRed (frameWith 480 640 [(100, 100), (100, 101)]) ⟨7, 8⟩ [⟨1, 2⟩]
      = .ok ⟨1, ⟨100, 100⟩, [⟨1, 2⟩], false⟩ := by
    rw [getRed_of_firstRed
      (frameWith_firstRed 480 640 _ 100 100 (by decide) (by decide) (by decide)),
      getRed.hit_found _ _ (by decide) (by decide)]
  ⟨⟨hget, rfl⟩,
    C13_found_iteration_extends_trail 321 (frameWith 480 640 [(100, 100), (100, 101)])
      ⟨⟨7, 8⟩, ⟨0, 0, 0, 0⟩, [⟨1, 2⟩]⟩ ⟨1, ⟨100, 100⟩, [⟨1, 2⟩], false⟩
      (by decide) (by decide) hget rfl⟩

/-- C14 (the code at a failing input): the 16-bit value of lines 262-265 is
`0<<11 | 255<<5 | 255 = 0x1FFF`, not `0x07FF`: the 8-bit green 255 shifted by 5
reaches bits 11 and 12, so the red field (bits 15..11) is 3, while the green field
is 63 and the blue field is 31.  On a 16-bit frame buffer of 800 pixels per line
the dot `(125, 125)` is stored as that value. -/
theorem C14_pixel16_red_field_not_zero :
    pixel16 = 0x1FFF ∧ pixel16 ≠ 0x07FF ∧
    pixel16 / 2048 = 3 ∧ pixel16 / 32 % 64 = 63 ∧ pixel16 % 32 = 31 ∧
    paintPass ⟨0, 0, 16, 1600⟩ [⟨125, 125⟩] = [Store.half 200250 0x1FFF] := by
  refine ⟨by decide, by decide, by decide, by decide, by decide, by decide⟩

/-- C15 (the code at a failing input): in the 640x480 frame whose only red pixel is
`(x, y) = (639, 100)` the scan result is Found at that pixel, `getRect` returns
`{636, 639, 97, 103}`, and `getVet`, whose loops stop before `x_fim`, never visits
column 639: the iteration reaches the paint pass with the trail still empty, so
the detection contributes no point and the mapping `(798, 125)` of the seed is not
in the trail. -/
theorem C15_seed_in_last_column_not_appended (p0 : Ponto) (r0 : Retangulo) :
    (∃ r, getRed (frameWith 480 640 [(100, 639)]) p0 [] = .ok r ∧
      r.scan = Scan.Found ⟨639, 100⟩) ∧
    mainIter 321 (frameWith 480 640 [(100, 639)]) ⟨p0, r0, []⟩
      = .ok { state := ⟨⟨639, 100⟩, ⟨636, 639, 97, 103⟩, []⟩,
              stop := false, xrefresh := 0 } ∧
    toScreen 639 100 = ⟨798, 125⟩ ∧
    toScreen 639 100 ∉ ([] : List Ponto) := by
  have hget : getRed (frameWith 480 640 [(100, 639)]) p0 []
      = .ok ⟨1, ⟨639, 100⟩, [], false⟩ := by
    rw [getRed_of_firstRed
      (frameWith_firstRed 480 640 _ 100 639 (by decide) (by decide) (by decide)),
      getRed.hit_found _ _ (by decide) (by decide)]
  have hrect : getRect 321 (frameWith 480 640 [(100, 639)]) ⟨639, 100⟩
      = .ok ⟨636, 639, 97, 103⟩ := rfl
  have hvet : getVet (frameWith 480 640 [(100, 639)]) [] ⟨636, 639, 97, 103⟩
      = .ok [] := rfl
  refine ⟨⟨_, hget, rfl⟩, ?_, by decide, by simp⟩
  exact mainIter_of_ret_one 321 _ ⟨p0, r0, []⟩ _ _ _ hget rfl hrect hvet

/-- C16: for a red seed of the frame and each of the eight step vectors `(dx, dy)`, with
fuel for half the longer frame side, there is a `K` such that the samples
`seed + j*(dx, dy)`, `j = 0..K`, are all red pixels of the frame and sample `K+1` is
not (outside the frame or not red).  The loop of `getLastRed` returns; its minimum
and maximum bound every sample `0..K` and each is attained at one of them; these
are what is merged into the rectangle.  The positions the loop reads are exactly
the samples `0..K` and, when it lies in the frame, sample `K+1`: all in the frame,
at even offsets from the seed, none beyond the first sample that is not red. -/
theorem C16_ray_extremes_exact (frame : Mat) (sx sy dx dy : Int) (fuel : Nat)
    (out : Retangulo) (hdir : isDir dx dy) (hseed : frame.isRed sy sx)
    (hc : (frame.cols : Int) ≤ 2 * fuel) (hr : (frame.rows : Int) ≤ 2 * fuel) :
    ∃ (K : Nat) (t : Ray),
      (∀ j : Nat, j ≤ K → frame.isRed (sy + j * dy) (sx + j * dx)) ∧
      ¬ frame.isRed (sy + (K + 1 : Nat) * dy) (sx + (K + 1 : Nat) * dx) ∧
      getLastRed.loop frame dx dy fuel ⟨sx, sy, sx, sx, sy, sy⟩ = .ok t ∧
      getLastRed fuel frame ⟨sx, sy⟩ dx dy out = .ok (getLastRed.merge t out) ∧
      (∀ j : Nat, j ≤ K → t.min_x ≤ sx + j * dx ∧ sx + j * dx ≤ t.max_x ∧
        t.min_y ≤ sy + j * dy ∧ sy + j * dy ≤ t.max_y) ∧
      (∃ j : Nat, j ≤ K ∧ t.min_x = sx + j * dx) ∧
      (∃ j : Nat, j ≤ K ∧ t.max_x = sx + j * dx) ∧
      (∃ j : Nat, j ≤ K ∧ t.min_y = sy + j * dy) ∧
      (∃ j : Nat, j ≤ K ∧ t.max_y = sy + j * dy) ∧
      getLastRed.reads frame dx dy fuel ⟨sx, sy, sx, sx, sy, sy⟩
        = (List.range (K + 1)).map (fun j : Nat => (sy + j * dy, sx + j * dx)) ++
            (if frame.inFrame (sy + (K + 1 : Nat) * dy) (sx + (K + 1 : Nat) * dx)
              then [(sy + (K + 1 : Nat) * dy, sx + (K + 1 : Nat) * dx)] else []) ∧
      ∀ p ∈ getLastRed.reads frame dx dy fuel ⟨sx, sy, sx, sx, sy, sy⟩,
        frame.inFrame p.1 p.2 ∧ (p.1 - sy) % 2 = 0 ∧ (p.2 - sx) % 2 = 0 ∧
        ∃ j : Nat, j ≤ K + 1 ∧ p = (sy + j * dy, sx + j * dx) := by
  obtain ⟨i1, i2, i3, i4⟩ := hseed.1
  obtain ⟨n, t, hl, _, hredj, hnred, hb, a1, a2, a3, a4, _, hrd⟩ :=
    getLastRed.loop_run frame dx dy hdir fuel sx sy sx sx sy sy hseed.1
      (by intro _; omega) (by intro _; omega) (by intro _ _; omega) (by intro _ _; omega)
  obtain ⟨K, rfl⟩ : ∃ K, n = K + 1 := by
    cases n with
    | zero =>
      exfalso
      apply hnred
      simp only [Nat.cast_zero, zero_mul, add_zero]
      exact hseed
    | succ K => exact ⟨K, rfl⟩
  have first : ∀ (v s d : Int), (v = s ∨ ∃ j : Nat, j < K + 1 ∧ v = s + (j : Int) * d) →
      ∃ j : Nat, j ≤ K ∧ v = s + (j : Int) * d := by
    intro v s d h
    rcases h with h | ⟨j, hj, h⟩
    · exact ⟨0, by omega, by simp [h]⟩
    · exact ⟨j, by omega, h⟩
  refine ⟨K, t, fun j hj => hredj j (by omega), hnred, hl, by simp only [getLastRed, hl],
    fun j hj => hb j (by omega), first _ _ _ a1, first _ _ _ a2, first _ _ _ a3,
    first _ _ _ a4, hrd, ?_⟩
  have hmul : ∀ (j : Nat) (d : Int), (d = 2 ∨ d = -2 ∨ d = 0) → ((j : Int) * d) % 2 = 0 := by
    intro j d hd
    rcases hd with rfl | rfl | rfl <;> omega
  have hsample : ∀ j : Nat, j ≤ K + 1 →
      ((sy + (j : Int) * dy) - sy) % 2 = 0 ∧ ((sx + (j : Int) * dx) - sx) % 2 = 0 := by
    intro j _
    have h1 := hmul j dy hdir.2.1
    have h2 := hmul j dx hdir.1
    constructor
    · rw [add_sub_cancel_left]; exact h1
    · rw [add_sub_cancel_left]; exact h2
  intro p hp
  rw [hrd, List.mem_append] at hp
  rcases hp with hp | hp
  · obtain ⟨j, hj, rfl⟩ := List.mem_map.1 hp
    have hjK : j < K + 1 := List.mem_range.1 hj
    exact ⟨(hredj j hjK).1, (hsample j (by omega)).1, (hsample j (by omega)).2,
      j, by omega, rfl⟩
  · by_cases hin : frame.inFrame (sy + ((K + 1 : Nat) : Int) * dy) (sx + ((K + 1 : Nat) : Int) * dx)
    · rw [if_pos hin, List.mem_singleton] at hp
      subst hp
      exact ⟨hin, (hsample (K + 1) (le_refl _)).1, (hsample (K + 1) (le_refl _)).2,
        K + 1, le_refl _, rfl⟩
    · rw [if_neg hin] at hp
      simp at hp

/-- C16 at the 640x480 frame with red pixels `(320, 240)`, `(322, 240)`, `(324, 240)`,
seed `(320, 240)` and step `(2, 0)`. -/
theorem C16_ray_extremes_exact_witness :
    (isDir 2 0 ∧ (frameWith 480 640 [(240, 320), (240, 322), (240, 324)]).isRed 240 320) ∧
    ∃ (K : Nat) (t : Ray),
      (∀ j : Nat, j ≤ K →
        (frameWith 480 640 [(240, 320), (240, 322), (240, 324)]).isRed
          (240 + j * 0) (320 + j * 2)) ∧
      ¬ (frameWith 480 640 [(240, 320), (240, 322), (240, 324)]).isRed
          (240 + (K + 1 : Nat) * 0) (320 + (K + 1 : Nat) * 2) ∧
      getLastRed.loop (frameWith 480 640 [(240, 320), (240, 322), (240, 324)]) 2 0 321
        ⟨320, 240, 320, 320, 240, 240⟩ = .ok t ∧
      getLastRed 321 (frameWith 480 640 [(240, 320), (240, 322), (240, 324)]) ⟨320, 240⟩ 2 0
        ⟨320, 320, 240, 240⟩ = .ok (getLastRed.merge t ⟨320, 320, 240, 240⟩) ∧
      (∀ j : Nat, j ≤ K → t.min_x ≤ 320 + j * 2 ∧ 320 + j * 2 ≤ t.max_x ∧
        t.min_y ≤ 240 + j * 0 ∧ 240 + j * 0 ≤ t.max_y) ∧
      (∃ j : Nat, j ≤ K ∧ t.min_x = 320 + j * 2) ∧
      (∃ j : Nat, j ≤ K ∧ t.max_x = 320 + j * 2) ∧
      (∃ j : Nat, j ≤ K ∧ t.min_y = 240 + j * 0) ∧
      (∃ j : Nat, j ≤ K ∧ t.max_y = 240 + j * 0) ∧
      getLastRed.reads (frameWith 480 640 [(240, 320), (240, 322), (240, 324)]) 2 0 321
          ⟨320, 240, 320, 320, 240, 240⟩
        = (List.range (K + 1)).map (fun j : Nat => ((240 : Int) + j * 0, (320 : Int) + j * 2)) ++
            (if (frameWith 480 640 [(240, 320), (240, 322), (240, 324)]).inFrame
                (240 + (K + 1 : Nat) * 0) (320 + (K + 1 : Nat) * 2)
              then [((240 : Int) + (K + 1 : Nat) * 0, (320 : Int) + (K + 1 : Nat) * 2)] else []) ∧
      ∀ p ∈ getLastRed.reads (frameWith 480 640 [(240, 320), (240, 322), (240, 324)]) 2 0 321
          ⟨320, 240, 320, 320, 240, 240⟩,
        (frameWith 480 640 [(240, 320), (240, 322), (240, 324)]).inFrame p.1 p.2 ∧
        (p.1 - 240) % 2 = 0 ∧ (p.2 - 320) % 2 = 0 ∧
        ∃ j : Nat, j ≤ K + 1 ∧ p = ((240 : Int) + j * 0, (320 : Int) + j * 2) :=
  ⟨⟨by decide, by decide⟩,
    C16_ray_extremes_exact (frameWith 480 640 [(240, 320), (240, 322), (240, 324)])
      320 240 2 0 321 ⟨320, 320, 240, 240⟩ (by decide) (by decide) (by decide) (by decide)⟩

/-- C17: for a seed of the frame (with fuel for half the longer frame side) the eight
passes return a rectangle `q` and `getRect` returns `q` with each side moved out by
exactly 3 when the moved side is still a coordinate of the frame, and left where
it is otherwise, never clamped to the frame border: `x_ini` is `q.x_ini - 3` if
that is at least 0 and `q.x_ini` if not, `x_fim` is `q.x_fim + 3` if that is below
`cols` and `q.x_fim` if not, and likewise for `y`. -/
theorem C17_padding_by_three_or_none (frame : Mat) (point : Ponto) (fuel : Nat)
    (hc : (frame.cols : Int) ≤ 2 * fuel) (hr : (frame.rows : Int) ≤ 2 * fuel)
    (hin : frame.inFrame point.y point.x) :
    ∃ q res, getRect.rays fuel frame point = .ok q ∧ getRect fuel frame point = .ok res ∧
      (0 ≤ q.x_ini - 3 → res.x_ini = q.x_ini - 3) ∧ (q.x_ini - 3 < 0 → res.x_ini = q.x_ini) ∧
      (0 ≤ q.y_ini - 3 → res.y_ini = q.y_ini - 3) ∧ (q.y_ini - 3 < 0 → res.y_ini = q.y_ini) ∧
      (q.x_fim + 3 < frame.cols → res.x_fim = q.x_fim + 3) ∧
      ((frame.cols : Int) ≤ q.x_fim + 3 → res.x_fim = q.x_fim) ∧
      (q.y_fim + 3 < frame.rows → res.y_fim = q.y_fim + 3) ∧
      ((frame.rows : Int) ≤ q.y_fim + 3 → res.y_fim = q.y_fim) := by
  obtain ⟨q, hrays, _⟩ := getRect.rays_within frame point fuel hc hr hin
  refine ⟨q, getRect.pad frame q, hrays, by simp only [getRect, hrays], ?_⟩
  simp only [getRect.pad]
  refine ⟨?_, ?_, ?_, ?_, ?_, ?_, ?_, ?_⟩ <;> intro h <;> split_ifs <;> omega

/-- C17 at the 640x480 frame whose only red pixel is the seed `(1, 240)`: the passes
leave `{1, 1, 240, 240}` and `getRect` returns `{1, 4, 237, 243}`, with `x_ini` still 1. -/
theorem C17_padding_by_three_or_none_witness :
    (frameWith 480 640 [(240, 1)]).inFrame 240 1 ∧
    getRect 321 (frameWith 480 640 [(240, 1)]) ⟨1, 240⟩ = .ok ⟨1, 4, 237, 243⟩ ∧
    ∃ q res, getRect.rays 321 (frameWith 480 640 [(240, 1)]) ⟨1, 240⟩ = .ok q ∧
      getRect 321 (frameWith 480 640 [(240, 1)]) ⟨1, 240⟩ = .ok res ∧
      (0 ≤ q.x_ini - 3 → res.x_ini = q.x_ini - 3) ∧ (q.x_ini - 3 < 0 → res.x_ini = q.x_ini) ∧
      (0 ≤ q.y_ini - 3 → res.y_ini = q.y_ini - 3) ∧ (q.y_ini - 3 < 0 → res.y_ini = q.y_ini) ∧
      (q.x_fim + 3 < (frameWith 480 640 [(240, 1)]).cols → res.x_fim = q.x_fim + 3) ∧
      (((frameWith 480 640 [(240, 1)]).cols : Int) ≤ q.x_fim + 3 → res.x_fim = q.x_fim) ∧
      (q.y_fim + 3 < (frameWith 480 640 [(240, 1)]).rows → res.y_fim = q.y_fim + 3) ∧
      (((frameWith 480 640 [(240, 1)]).rows : Int) ≤ q.y_fim + 3 → res.y_fim = q.y_fim) :=
  ⟨by decide, rfl,
    C17_padding_by_three_or_none (frameWith 480 640 [(240, 1)]) ⟨1, 240⟩ 321
      (by decide) (by decide) (by decide)⟩

/-- C18: from a seed of the frame, with fuel for half the longer frame side, every call
of `getLastRed` along one of the eight step vectors returns a rectangle that
encloses the one it was given (`x_ini`, `y_ini` not larger, `x_fim`, `y_fim` not
smaller), whatever that rectangle is; the padding encloses its argument too; so
in `getRect` each of the eight passes encloses the rectangle before it, starting
from the degenerate rectangle at the seed, and the returned rectangle encloses
the last of them. -/
theorem C18_rectangle_only_expands (frame : Mat) (point : Ponto) (up_x up_y : Int)
    (fuel : Nat) (r : Retangulo) (hdir : isDir up_x up_y)
    (hc : (frame.cols : Int) ≤ 2 * fuel) (hr : (frame.rows : Int) ≤ 2 * fuel)
    (hin : frame.inFrame point.y point.x) :
    (∃ r1, getLastRed fuel frame point up_x up_y r = .ok r1 ∧
      r1.x_ini ≤ r.x_ini ∧ r1.x_fim ≥ r.x_fim ∧ r1.y_ini ≤ r.y_ini ∧ r1.y_fim ≥ r.y_fim) ∧
    (∀ q : Retangulo, (getRect.pad frame q).encloses q) ∧
    ∃ r1 r2 r3 r4 r5 r6 r7 r8 : Retangulo,
      getLastRed fuel frame point 2 0 ⟨point.x, point.x, point.y, point.y⟩ = .ok r1 ∧
      r1.encloses ⟨point.x, point.x, point.y, point.y⟩ ∧
      getLastRed fuel frame point (-2) 0 r1 = .ok r2 ∧ r2.encloses r1 ∧
      getLastRed fuel frame point 0 2 r2 = .ok r3 ∧ r3.encloses r2 ∧
      getLastRed fuel frame point 0 (-2) r3 = .ok r4 ∧ r4.encloses r3 ∧
      getLastRed fuel frame point 2 2 r4 = .ok r5 ∧ r5.encloses r4 ∧
      getLastRed fuel frame point (-2) 2 r5 = .ok r6 ∧ r6.encloses r5 ∧
      getLastRed fuel frame point 2 (-2) r6 = .ok r7 ∧ r7.encloses r6 ∧
      getLastRed fuel frame point (-2) (-2) r7 = .ok r8 ∧ r8.encloses r7 ∧
      getRect.rays fuel frame point = .ok r8 ∧
      getRect fuel frame point = .ok (getRect.pad frame r8) ∧
      (getRect.pad frame r8).encloses r8 := by
  refine ⟨?_, getRect.pad_encloses frame, ?_⟩
  · obtain ⟨r1, h1, e1, e2, e3, e4⟩ :=
      getLastRed_expands frame point up_x up_y fuel r hdir hc hr hin
    exact ⟨r1, h1, e1, e2, e3, e4⟩
  · obtain ⟨r1, h1, e1⟩ := getLastRed_expands frame point 2 0 fuel
      ⟨point.x, point.x, point.y, point.y⟩ (by decide) hc hr hin
    obtain ⟨r2, h2, e2⟩ := getLastRed_expands frame point (-2) 0 fuel r1 (by decide) hc hr hin
    obtain ⟨r3, h3, e3⟩ := getLastRed_expands frame point 0 2 fuel r2 (by decide) hc hr hin
    obtain ⟨r4, h4, e4⟩ := getLastRed_expands frame point 0 (-2) fuel r3 (by decide) hc hr hin
    obtain ⟨r5, h5, e5⟩ := getLastRed_expands frame point 2 2 fuel r4 (by decide) hc hr hin
    obtain ⟨r6, h6, e6⟩ := getLastRed_expands frame point (-2) 2 fuel r5 (by decide) hc hr hin
    obtain ⟨r7, h7, e7⟩ := getLastRed_expands frame point 2 (-2) fuel r6 (by decide) hc hr hin
    obtain ⟨r8, h8, e8⟩ :=
      getLastRed_expands frame point (-2) (-2) fuel r7 (by decide) hc hr hin
    have hrays : getRect.rays fuel frame point = .ok r8 := by
      simp only [getRect.rays, bind, Except.bind, h1, h2, h3, h4, h5, h6, h7, h8]
    exact ⟨r1, r2, r3, r4, r5, r6, r7, r8, h1, e1, h2, e2, h3, e3, h4, e4, h5, e5, h6, e6,
      h7, e7, h8, e8, hrays, by simp only [getRect, hrays], getRect.pad_encloses frame r8⟩

/-- C18 at the 640x480 frame with red pixels `(320, 240)`, `(322, 240)`, `(320, 242)`,
seed `(320, 240)`, step `(2, 0)` and the rectangle `{310, 321, 239, 240}`. -/
theorem C18_rectangle_only_expands_witness :
    (isDir 2 0 ∧
      (frameWith 480 640 [(240, 320), (240, 322), (242, 320)]).inFrame 240 320) ∧
    getLastRed 321 (frameWith 480 640 [(240, 320), (240, 322), (242, 320)]) ⟨320, 240⟩ 2 0
      ⟨310, 321, 239, 240⟩ = .ok ⟨310, 322, 239, 240⟩ ∧
    ∃ r1, getLastRed 321 (frameWith 480 640 [(240, 320), (240, 322), (242, 320)])
        ⟨320, 240⟩ 2 0 ⟨310, 321, 239, 240⟩ = .ok r1 ∧
      r1.x_ini ≤ 310 ∧ r1.x_fim ≥ 321 ∧ r1.y_ini ≤ 239 ∧ r1.y_fim ≥ 240 :=
  ⟨⟨by decide, by decide⟩, rfl,
    (C18_rectangle_only_expands (frameWith 480 640 [(240, 320), (240, 322), (242, 320)])
      ⟨320, 240⟩ 2 0 321 ⟨310, 321, 239, 240⟩ (by decide) (by decide) (by decide)
      (by decide)).1⟩

/-- C19: for a rectangle of camera coordinates (`0 <= x_ini`, `x_fim < 640`, `0 <= y_ini`,
`y_fim < 480`) and every frame, whenever `getVet` returns, the vector is the old
one followed by points `p` with `0 <= p.x < 800` and `0 <= p.y < 600`; and on a
640x480 frame `getVet` does return. -/
theorem C19_appended_points_on_display (frame : Mat) (rect : Retangulo) (t : List Ponto)
    (hx0 : 0 ≤ rect.x_ini) (hx1 : rect.x_fim < 640)
    (hy0 : 0 ≤ rect.y_ini) (hy1 : rect.y_fim < 480) :
    (∀ out, getVet frame t rect = .ok out →
      ∃ P, out = t ++ P ∧ ∀ p ∈ P, 0 ≤ p.x ∧ p.x < 800 ∧ 0 ≤ p.y ∧ p.y < 600) ∧
    (frame.rows = 480 → frame.cols = 640 → ∃ out, getVet frame t rect = .ok out) := by
  constructor
  · intro out hout
    refine ⟨vetPoints frame rect, getVet_of_ok hout, ?_⟩
    intro p hp
    obtain ⟨y, x, h1, h2, h3, h4, _, rfl⟩ := mem_vetPoints hp
    have ex := screenX_eq_floor (x := x) (by omega) (by omega)
    have ey := screenY_eq_floor (y := y) (by omega) (by omega)
    simp only [toScreen, ex, ey]
    omega
  · intro hrows hcols
    refine ⟨_, getVet_eq frame t rect (Retangulo.readable_of_le hx0 ?_ hy0 ?_)⟩
    · rw [hcols]; push_cast; omega
    · rw [hrows]; push_cast; omega

/-- C19 at the 640x480 frame with red pixels `(638, 478)` and `(100, 100)` and the
rectangle `{0, 639, 0, 479}`. -/
theorem C19_appended_points_on_display_witness :
    ((0 : Int) ≤ 0 ∧ (639 : Int) < 640 ∧ (479 : Int) < 480) ∧
    (∀ out, getVet (frameWith 480 640 [(478, 638), (100, 100)]) [⟨1, 2⟩] ⟨0, 639, 0, 479⟩
        = .ok out →
      ∃ P, out = [⟨1, 2⟩] ++ P ∧ ∀ p ∈ P, 0 ≤ p.x ∧ p.x < 800 ∧ 0 ≤ p.y ∧ p.y < 600) ∧
    ((frameWith 480 640 [(478, 638), (100, 100)]).rows = 480 →
      (frameWith 480 640 [(478, 638), (100, 100)]).cols = 640 →
      ∃ out, getVet (frameWith 480 640 [(478, 638), (100, 100)]) [⟨1, 2⟩] ⟨0, 639, 0, 479⟩
        = .ok out) :=
  ⟨by decide,
    C19_appended_points_on_display (frameWith 480 640 [(478, 638), (100, 100)])
      ⟨0, 639, 0, 479⟩ [⟨1, 2⟩] (by decide) (by decide) (by decide) (by decide)⟩

/-- C20: for every frame, every seed of the frame and each of the eight step vectors,
the `while` loop of `getLastRed` returns whenever it is given fuel for
`max(cols, rows)/2 + 1` runs of its body or more: it runs its body `n` times
with `n <= max(cols, rows)/2 + 1`, at the samples `0 .. n-1` (red pixels of the
frame), and stops at sample `n`; every position it reads is in the frame. -/
theorem C20_ray_loop_terminates (frame : Mat) (sx sy dx dy : Int) (fuel : Nat)
    (hdir : isDir dx dy) (hin : frame.inFrame sy sx)
    (hfuel : max frame.cols frame.rows / 2 + 1 ≤ fuel) :
    ∃ (n : Nat) (t : Ray),
      getLastRed.loop frame dx dy fuel ⟨sx, sy, sx, sx, sy, sy⟩ = .ok t ∧
      n ≤ max frame.cols frame.rows / 2 + 1 ∧
      (∀ j : Nat, j < n → frame.isRed (sy + j * dy) (sx + j * dx)) ∧
      ¬ frame.isRed (sy + n * dy) (sx + n * dx) ∧
      getLastRed.reads frame dx dy fuel ⟨sx, sy, sx, sx, sy, sy⟩
        = (List.range n).map (fun j : Nat => (sy + j * dy, sx + j * dx)) ++
            (if frame.inFrame (sy + n * dy) (sx + n * dx)
              then [(sy + n * dy, sx + n * dx)] else []) ∧
      (getLastRed.reads frame dx dy fuel ⟨sx, sy, sx, sx, sy, sy⟩).length ≤ n + 1 ∧
      ∀ p ∈ getLastRed.reads frame dx dy fuel ⟨sx, sy, sx, sx, sy, sy⟩,
        frame.inFrame p.1 p.2 := by
  obtain ⟨i1, i2, i3, i4⟩ := hin
  have hF : (frame.cols : Int) ≤ 2 * ((max frame.cols frame.rows / 2 + 1 : Nat) : Int) ∧
      (frame.rows : Int) ≤ 2 * ((max frame.cols frame.rows / 2 + 1 : Nat) : Int) := by
    omega
  have hfc : (frame.cols : Int) ≤ 2 * fuel ∧ (frame.rows : Int) ≤ 2 * fuel := by omega
  obtain ⟨n, t, hl, _, hredj, hnred, _, _, _, _, _, _, hrd⟩ :=
    getLastRed.loop_run frame dx dy hdir fuel sx sy sx sx sy sy ⟨i1, i2, i3, i4⟩
      (by intro _; omega) (by intro _; omega) (by intro _ _; omega) (by intro _ _; omega)
  obtain ⟨m, _, _, hm, hredm, hnredm, _⟩ :=
    getLastRed.loop_run frame dx dy hdir (max frame.cols frame.rows / 2 + 1)
      sx sy sx sx sy sy ⟨i1, i2, i3, i4⟩
      (by intro _; omega) (by intro _; omega) (by intro _ _; omega) (by intro _ _; omega)
  have hnm : n = m := red_run_unique hredj hnred hredm hnredm
  refine ⟨n, t, hl, by omega, hredj, hnred, hrd, ?_, ?_⟩
  · rw [hrd]
    simp only [List.length_append, List.length_map, List.length_range]
    split_ifs <;> simp
  · intro p hp
    rw [hrd, List.mem_append] at hp
    rcases hp with hp | hp
    · obtain ⟨j, hj, rfl⟩ := List.mem_map.1 hp
      exact (hredj j (List.mem_range.1 hj)).1
    · by_cases hi : frame.inFrame (sy + (n : Int) * dy) (sx + (n : Int) * dx)
      · rw [if_pos hi, List.mem_singleton] at hp
        subst hp
        exact hi
      · rw [if_neg hi] at hp
        simp at hp

/-- C20 at the 640x480 frame whose row 240 is red at every even column from 0 to 638,
seed `(0, 240)` and step `(2, 0)`, with fuel 321. -/
theorem C20_ray_loop_terminates_witness :
    (isDir 2 0 ∧ (Mat.mk 480 640 fun y x =>
        if y = 240 ∧ x % 2 = 0 then ⟨0, 0, 255⟩ else ⟨0, 0, 0⟩).inFrame 240 0 ∧
      max 640 480 / 2 + 1 ≤ 321) ∧
    ∃ (n : Nat) (t : Ray),
      getLastRed.loop (Mat.mk 480 640 fun y x =>
          if y = 240 ∧ x % 2 = 0 then ⟨0, 0, 255⟩ else ⟨0, 0, 0⟩) 2 0 321
        ⟨0, 240, 0, 0, 240, 240⟩ = .ok t ∧
      n ≤ max 640 480 / 2 + 1 ∧
      (∀ j : Nat, j < n → (Mat.mk 480 640 fun y x =>
          if y = 240 ∧ x % 2 = 0 then ⟨0, 0, 255⟩ else ⟨0, 0, 0⟩).isRed
        (240 + j * 0) (0 + j * 2)) ∧
      ¬ (Mat.mk 480 640 fun y x =>
          if y = 240 ∧ x % 2 = 0 then ⟨0, 0, 255⟩ else ⟨0, 0, 0⟩).isRed
        (240 + n * 0) (0 + n * 2) ∧
      getLastRed.reads (Mat.mk 480 640 fun y x =>
          if y = 240 ∧ x % 2 = 0 then ⟨0, 0, 255⟩ else ⟨0, 0, 0⟩) 2 0 321
          ⟨0, 240, 0, 0, 240, 240⟩
        = (List.range n).map (fun j : Nat => ((240 : Int) + j * 0, (0 : Int) + j * 2)) ++
            (if (Mat.mk 480 640 fun y x =>
                if y = 240 ∧ x % 2 = 0 then ⟨0, 0, 255⟩ else ⟨0, 0, 0⟩).inFrame
                (240 + n * 0) (0 + n * 2)
              then [((240 : Int) + n * 0, (0 : Int) + n * 2)] else []) ∧
      (getLastRed.reads (Mat.mk 480 640 fun y x =>
          if y = 240 ∧ x % 2 = 0 then ⟨0, 0, 255⟩ else ⟨0, 0, 0⟩) 2 0 321
          ⟨0, 240, 0, 0, 240, 240⟩).length ≤ n + 1 ∧
      ∀ p ∈ getLastRed.reads (Mat.mk 480 640 fun y x =>
          if y = 240 ∧ x % 2 = 0 then ⟨0, 0, 255⟩ else ⟨0, 0, 0⟩) 2 0 321
          ⟨0, 240, 0, 0, 240, 240⟩,
        (Mat.mk 480 640 fun y x =>
          if y = 240 ∧ x % 2 = 0 then ⟨0, 0, 255⟩ else ⟨0, 0, 0⟩).inFrame p.1 p.2 :=
  ⟨⟨by decide, by decide, by decide⟩,
    C20_ray_loop_terminates (Mat.mk 480 640 fun y x =>
        if y = 240 ∧ x % 2 = 0 then ⟨0, 0, 255⟩ else ⟨0, 0, 0⟩) 0 240 2 0 321
      (by decide) (by decide) (by decide)⟩

end LaserCast
